import Mathlib

/-!
Verification of the Sommerferieplan vacation/shift scheduler
(`vacation_scheduler.py`), as a shallow embedding in Lean 4.

Modelling conventions.

* Dates are integers counting days from an arbitrary fixed Monday, so that
  `pyWeekday d = d % 7` with Monday = 0, matching Python's
  `datetime.weekday()`, and `date - timedelta(days=date.weekday())`
  becomes `week_start`.
* Python `float` hour arithmetic is modelled with `ℚ`.  Every value the
  scheduler manipulates is a small decimal and no property below concerns
  binary rounding.
* Python `dict`s are modelled as association lists with CPython's
  insertion-order semantics: `dinsert` overwrites in place for an existing
  key and appends a fresh key at the end, `ddel` removes an entry,
  iteration order is list order.  Python `set`s, which the source only
  ever queries for membership and size, are modelled as duplicate-free
  lists.
* The seeded `random.shuffle` calls are passed in as explicit function
  parameters (`shuffle` for the rebalancer's per-pass shuffle of an
  over-assigned employee's shift list, `gshuffle2` for the allocator's
  per-attempt shuffle of the two groups).  All concrete evaluations below
  only exercise runs in which the reference implementation never reaches a
  shuffle call (rebalancer transfers happen in pass 0 and the pass loop
  stops before any shuffle; allocator groups are singletons, which shuffle
  to themselves), so instantiating the parameter with the identity
  reproduces the reference run exactly.
* Console diagnostics (`print`) are dropped, except the shift assigner's
  "could not fill all positions" error reports, which some properties
  quantify over; those are returned as a list of `UnfilledReport` records.
  The rebalancer's `total_hours` bookkeeping, which the source only uses
  for printed statistics, is dropped as well.
-/

/-! ## Dates -/

abbrev Date := Int

/-- Python `date.weekday()`: Monday = 0, ..., Sunday = 6. -/
def pyWeekday (d : Date) : Int := d.emod 7

/-- Python `date.weekday() >= 5` respectively `in (5, 6)`. -/
def is_weekend (d : Date) : Bool := pyWeekday d ≥ 5

/-- Python `date - timedelta(days=date.weekday())`: the Monday of the week. -/
def week_start (d : Date) : Date := d - pyWeekday d

/-! ## Python dictionaries as association lists -/

section PyDict

variable {α β : Type} [DecidableEq α]

/-- Lookup, `d.get(k)` / `k in d`. -/
def dget? (l : List (α × β)) (k : α) : Option β :=
  (l.find? (fun p => decide (p.1 = k))).map (·.2)

/-- Lookup with default, `d.get(k, v₀)` and `defaultdict` reads. -/
def dgetD (l : List (α × β)) (k : α) (v₀ : β) : β :=
  (dget? l k).getD v₀

/-- Python `d[k] = v`: overwrite in place if the key exists (keeping its
position), else append the new key at the end. -/
def dinsert (l : List (α × β)) (k : α) (v : β) : List (α × β) :=
  match l with
  | [] => [(k, v)]
  | p :: rest => if p.1 = k then (k, v) :: rest else p :: dinsert rest k v

/-- Python `del d[k]` (on keys known to be present). -/
def ddel (l : List (α × β)) (k : α) : List (α × β) :=
  l.filter (fun p => decide (p.1 ≠ k))

/-- Python `defaultdict` accumulation `d[k] += v` for numeric values. -/
def dinsertAdd [Add β] (l : List (α × β)) (k : α) (v₀ : β) (v : β) : List (α × β) :=
  dinsert l k (dgetD l k v₀ + v)

/-- The keys of an association list. -/
def dkeys (l : List (α × β)) : List α := l.map (·.1)

end PyDict

/-! ## Stable sorting

Python's `list.sort` is a stable sort with respect to the key order.  A
stable sort is uniquely determined by the (total, transitive) `le`
predicate, so a stable insertion sort produces exactly the list CPython
produces.  `le x y` must hold in particular on ties, so that an element
inserted into the sorted remainder (all of which came later in the
original list) lands before elements with an equal key. -/

def sinsert {α : Type} (le : α → α → Bool) (x : α) : List α → List α
  | [] => [x]
  | y :: ys => if le x y then x :: y :: ys else y :: sinsert le x ys

def ssort {α : Type} (le : α → α → Bool) : List α → List α
  | [] => []
  | x :: xs => sinsert le x (ssort le xs)

/-! ## Data model (`Employee`, `CoverageRequirement`, `Shift`) -/

structure Employee where
  id : String
  name : String
  skills : List String
  weekly_target_hours : Int
  max_hours_per_week : Int
deriving DecidableEq

structure CoverageRequirement where
  day_type : String
  shift_id : String
  required : Int
  required_skill : String
deriving DecidableEq

/-- A shift record.  The source's `end` attribute is called `stop` here
(`end` is reserved in Lean); `start` and `stop` keep the raw `HH:MM`
strings, which is all `calculate_shift_hours` reads. -/
structure Shift where
  id : String
  name : String
  start : String
  stop : String
  category : String
deriving DecidableEq

/-! ## Python `int()` on time components -/

/-- Decimal value of a nonempty all-digit character list. -/
def digitsVal : List Char → Option Nat
  | [] => none
  | cs =>
    cs.foldl (fun acc c =>
      acc.bind (fun n => if c.isDigit then some (n * 10 + (c.toNat - 48)) else none))
      (some 0)

/-- Python `int(s)` on the strings that reach it here: an optional sign
followed by decimal digits; anything else raises `ValueError`, modelled
as `none`.  (Python additionally strips whitespace and allows `_`
separators; no property below involves such strings.) -/
def pyInt (s : String) : Option Int :=
  match s.data with
  | [] => none
  | '-' :: rest => (digitsVal rest).map (fun n => -(n : Int))
  | '+' :: rest => (digitsVal rest).map (fun n => (n : Int))
  | cs => (digitsVal cs).map (fun n => (n : Int))

/-- Python `s.split(sep)` for a single separator character, on the
character list: `"".split(c) = [""]`, `":".split(":") = ["", ""]`, etc. -/
def splitOnChar (sep : Char) : List Char → List (List Char)
  | [] => [[]]
  | c :: cs =>
    match splitOnChar sep cs with
    | [] => [[]]
    | g :: gs => if c = sep then [] :: g :: gs else (c :: g) :: gs

/-- Parse `"HH:MM"` the way `calculate_shift_hours` does: split on `':'`,
take the first two parts (an `IndexError` on fewer than two parts and a
`ValueError` from `int` both fall to the default). -/
def parseHM (s : String) : Option (Int × Int) :=
  match splitOnChar ':' s.data with
  | p0 :: p1 :: _ =>
    (pyInt (String.mk p0)).bind (fun h => (pyInt (String.mk p1)).map (fun m => (h, m)))
  | _ => none

/-! ## `calculate_shift_hours` (source lines 648-671) -/

/-- The module constant `DEFAULT_SHIFT_HOURS = 8.0`. -/
def DEFAULT_SHIFT_HOURS : ℚ := 8

def calculate_shift_hours (shift_id : String) (shifts : List (String × Shift)) : ℚ :=
  match dget? shifts shift_id with
  | none => DEFAULT_SHIFT_HOURS
  | some shift =>
    match parseHM shift.start, parseHM shift.stop with
    | some (start_h, start_m), some (end_h, end_m) =>
      let start_mins : Int := start_h * 60 + start_m
      let end_mins : Int := end_h * 60 + end_m
      let end_mins : Int := if end_mins ≤ start_mins then end_mins + 24 * 60 else end_mins
      ((end_mins - start_mins : Int) : ℚ) / 60
    | _, _ => DEFAULT_SHIFT_HOURS

/-- The duration formula the specification states for well-formed times:
(end − start) minutes, plus 24 h when end ≤ start, divided by 60. -/
def specShiftHours (startMins endMins : Int) : ℚ :=
  if endMins ≤ startMins then ((endMins + 1440 - startMins : Int) : ℚ) / 60
  else ((endMins - startMins : Int) : ℚ) / 60

/-! ## Coverage oracle (source lines 164-196) -/

/-- Source `calculate_min_employees_needed`: total head-count plus a
skill-requirements map accumulated with `defaultdict(int)` `+=`. -/
def calculate_min_employees_needed (requirements : List CoverageRequirement) :
    Int × List (String × Int) :=
  ((requirements.map (·.required)).sum,
   requirements.foldl
     (fun d req =>
       if req.required_skill ≠ "None" then dinsertAdd d req.required_skill 0 req.required
       else d)
     [])

/-- The skill-needs map `assign_shifts_to_employees` builds for one
shift's requirement group.  Note `skill_needs[req.required_skill] =
req.required` — a plain overwrite, unlike the coverage oracle's `+=`. -/
def assigner_skill_needs (reqs : List CoverageRequirement) : List (String × Int) :=
  reqs.foldl
    (fun d req =>
      if req.required_skill ≠ "None" then dinsert d req.required_skill req.required else d)
    []

/-! ## Tiered candidate selection (source lines 881-929) -/

/-- The prefilter at the top of `get_valid_candidates_tiered`'s loop:
skip employees already assigned today, and when a required skill is
given skip employees lacking it. -/
def tier_eligible (assigned_today : List String) (required_skill : Option String)
    (emp : Employee) : Bool :=
  !(assigned_today.contains emp.name) &&
    (match required_skill with
     | some skill => emp.skills.contains skill
     | none => true)

/-- The hard constraints shared by Tiers 1 and 2: under
`max_hours_per_week` after adding this shift, and fewer than 6
consecutive working days. -/
def tier12_hard (hours_per_week : String × Date → ℚ) (consecutive_work_days : String → Int)
    (ws : Date) (shift_hours : ℚ) (emp : Employee) : Bool :=
  decide (hours_per_week (emp.name, ws) + shift_hours ≤ (emp.max_hours_per_week : ℚ)) &&
    decide (consecutive_work_days emp.name < 6)

/-- The soft constraint distinguishing Tier 1 from Tier 2: also under
`weekly_target_hours` after adding this shift. -/
def tier1_soft (hours_per_week : String × Date → ℚ) (ws : Date) (shift_hours : ℚ)
    (emp : Employee) : Bool :=
  decide (hours_per_week (emp.name, ws) + shift_hours ≤ (emp.weekly_target_hours : ℚ))

/-- Source `get_valid_candidates_tiered`.  The mutable tables the Python
closure reads (`hours_per_week`, `consecutive_work_days`) are passed
explicitly; the `current_date` parameter of the source is unused in its
body and dropped.  Note that the loop appends every eligible candidate
to `tier3` ("Tier 3: Always available") before checking the Tier 1/2
constraints, so Tier 3 is the whole pool, not the remainder. -/
def get_valid_candidates_tiered (hours_per_week : String × Date → ℚ)
    (consecutive_work_days : String → Int) (assigned_today : List String)
    (ws : Date) (shift_hours : ℚ) (required_skill : Option String) :
    List Employee → List Employee × List Employee × List Employee
  | [] => ([], [], [])
  | emp :: rest =>
    let r := get_valid_candidates_tiered hours_per_week consecutive_work_days assigned_today
      ws shift_hours required_skill rest
    if tier_eligible assigned_today required_skill emp then
      if tier12_hard hours_per_week consecutive_work_days ws shift_hours emp then
        if tier1_soft hours_per_week ws shift_hours emp then
          (emp :: r.1, r.2.1, emp :: r.2.2)
        else
          (r.1, emp :: r.2.1, emp :: r.2.2)
      else
        (r.1, r.2.1, emp :: r.2.2)
    else r

/-! ## Python ranges -/

/-- Python `range(a, b)` on ints (step 1): `a, a+1, ..., b-1`. -/
def pyRangeAsc (a b : Int) : List Int :=
  (List.range (b - a).toNat).map (fun (i : ℕ) => a + (i : Int))

/-- Python `range(a, b, -1)` on ints: `a, a-1, ..., b+1`. -/
def pyRangeDesc (a b : Int) : List Int :=
  (List.range (a - b).toNat).map (fun (i : ℕ) => a - (i : Int))

/-! ## Block-length search ranges of `optimize_vacation_schedule` -/

/-- The ordered list of block lengths one attempt of the main branch of
`optimize_vacation_schedule` tries (source lines 331-344):
`start_size = min(target_days, max_block_size)` down to
`end_size = max(1, max_block_size - 8)`, skipping lengths that fit in
neither half (`continue` at line 343). -/
def main_branch_block_sizes (target_days mid_point rest_half : Int) : List Int :=
  let max_block_size := min mid_point rest_half
  let start_size := min target_days max_block_size
  let end_size := max 1 (max_block_size - 8)
  (pyRangeDesc start_size (end_size - 1)).filter
    (fun L => decide (¬(L > mid_point ∨ L > rest_half)))

/-- The block lengths the fallback branch tries for each employee
(source lines 482 and 526): `range(target_days_per_employee, 6, -1)`. -/
def fallback_block_sizes (target_days : Int) : List Int :=
  pyRangeDesc target_days 6

/-! ## Rebalancer (source lines 674-850)

The source's `employee_by_name` parameter is unused in the function body
and dropped; the `total_hours` table is only used for printed statistics
and dropped; prints are dropped.  The per-pass seeded
`random.shuffle(over_emp_shifts)` (reseeded `42 + pass_num` before every
shuffle, so it depends only on the pass number and the list) is the
`shuffle` parameter, applied exactly where the source applies it. -/

/-- State threaded through `rebalance_shift_assignments`: the assignment
map (employee name → (date → shift id)), the mutable `shift_counts`, and
the running transfer counter. -/
structure RebState where
  assignments : List (String × List (Date × String))
  counts : String → Int
  transfers : Nat

/-- Sum of shift hours over a list of dates, counting the dates present
in the per-employee map `M` (the `sum(... for d in week_dates if d in
...)` of source lines 806-809). -/
def sum_hours_on (M : List (Date × String)) (shifts : List (String × Shift)) :
    List Date → ℚ
  | [] => 0
  | d :: ds =>
    (match dget? M d with
     | some sid => calculate_shift_hours sid shifts
     | none => 0) + sum_hours_on M shifts ds

/-- The candidate's current hours in the Monday-anchored week-bucket of
`date` (source lines 803-809). -/
def rebalancer_week_hours (assignments : List (String × List (Date × String)))
    (dates : List Date) (shifts : List (String × Shift)) (name : String) (date : Date) : ℚ :=
  sum_hours_on (dgetD assignments name []) shifts
    (dates.filter (fun d => decide (week_start d = week_start date)))

/-- The acceptance test for moving `(date, shift_id)` to candidate
`under_emp` (source lines 789-820): not on vacation that date, no shift
that date, carries the recorded skill if one was recorded, and the
weekly-hours guards (the `weekly_target_hours` guard applies only to
pass numbers below 20). -/
def transfer_acceptable (vacation : List (String × List Date))
    (assignments : List (String × List (Date × String)))
    (dates : List Date) (shifts : List (String × Shift)) (pass_num : Nat)
    (date : Date) (shift_id : String) (skill_needed : Option String)
    (under_emp : Employee) : Bool :=
  !((dgetD vacation under_emp.name []).contains date) &&
  (dget? (dgetD assignments under_emp.name []) date).isNone &&
  (match skill_needed with
   | some sk => under_emp.skills.contains sk
   | none => true) &&
  (let current_week_hours :=
    rebalancer_week_hours assignments dates shifts under_emp.name date
   let shift_hours := calculate_shift_hours shift_id shifts
   !(decide (current_week_hours + shift_hours > (under_emp.max_hours_per_week : ℚ))) &&
   (if pass_num < 20 then
      !(decide (current_week_hours + shift_hours > (under_emp.weekly_target_hours : ℚ)))
    else true))

/-- Perform one accepted transfer (source lines 822-833): delete the
pair from the over-assigned employee, insert it for the under-assigned
one, and update the counts and the transfer counter. -/
def apply_transfer (st : RebState) (over_name under_name : String)
    (date : Date) (shift_id : String) : RebState :=
  let a1 := dinsert st.assignments over_name (ddel (dgetD st.assignments over_name []) date)
  let a2 := dinsert a1 under_name (dinsert (dgetD a1 under_name []) date shift_id)
  let c1 := fun n => if n = over_name then st.counts n - 1 else st.counts n
  let c2 := fun n => if n = under_name then c1 n + 1 else c1 n
  { assignments := a2, counts := c2, transfers := st.transfers + 1 }

/-- One attempted transfer of a pair (source lines 776-834): record the
first non-Any skill of the shift's requirements that day as
`skill_needed`, walk the under-assigned employees in priority order, and
transfer to the first acceptable one (if any). -/
def rebalancer_try_pair (coverage_weekday coverage_weekend : List CoverageRequirement)
    (vacation : List (String × List Date)) (dates : List Date)
    (shifts : List (String × Shift)) (pass_num : Nat) (over_emp : Employee)
    (unders : List Employee) (date : Date) (shift_id : String) (st : RebState) : RebState :=
  let requirements := if is_weekend date then coverage_weekend else coverage_weekday
  let shift_reqs := requirements.filter (fun r => decide (r.shift_id = shift_id))
  let skill_needed :=
    (shift_reqs.find? (fun r => decide (r.required_skill ≠ "None"))).map (·.required_skill)
  match unders.find? (transfer_acceptable vacation st.assignments dates shifts pass_num
      date shift_id skill_needed) with
  | some under_emp => apply_transfer st over_emp.name under_emp.name date shift_id
  | none => st

/-- The loop over one over-assigned employee's (date, shift) pairs
(source lines 771-838): skip pairs whose shift has no requirement that
day (`continue`, which also skips the break check), otherwise attempt
the transfer and break once the over-assigned employee is at or below
the operative maximum. -/
def rebalancer_pair_loop (coverage_weekday coverage_weekend : List CoverageRequirement)
    (vacation : List (String × List Date)) (dates : List Date)
    (shifts : List (String × Shift)) (pass_num : Nat) (current_max_target : Int)
    (over_emp : Employee) (unders : List Employee) :
    List (Date × String) → RebState → RebState
  | [], st => st
  | (date, shift_id) :: rest, st =>
    let requirements := if is_weekend date then coverage_weekend else coverage_weekday
    let shift_reqs := requirements.filter (fun r => decide (r.shift_id = shift_id))
    if shift_reqs.isEmpty then
      rebalancer_pair_loop coverage_weekday coverage_weekend vacation dates shifts pass_num
        current_max_target over_emp unders rest st
    else
      let st' := rebalancer_try_pair coverage_weekday coverage_weekend vacation dates shifts
        pass_num over_emp unders date shift_id st
      if st'.counts over_emp.name ≤ current_max_target then st'
      else
        rebalancer_pair_loop coverage_weekday coverage_weekend vacation dates shifts pass_num
          current_max_target over_emp unders rest st'

/-- The loop over the over-assigned employees of one pass (source lines
759-838). -/
def rebalancer_over_loop (shuffle : Nat → List (Date × String) → List (Date × String))
    (coverage_weekday coverage_weekend : List CoverageRequirement)
    (vacation : List (String × List Date)) (dates : List Date)
    (shifts : List (String × Shift)) (pass_num : Nat) (current_max_target : Int)
    (unders : List Employee) : List Employee → RebState → RebState
  | [], st => st
  | over_emp :: rest, st =>
    let over_emp_shifts := dgetD st.assignments over_emp.name []
    let over_emp_shifts :=
      if pass_num > 0 then shuffle pass_num over_emp_shifts else over_emp_shifts
    let st' := rebalancer_pair_loop coverage_weekday coverage_weekend vacation dates shifts
      pass_num current_max_target over_emp unders over_emp_shifts st
    rebalancer_over_loop shuffle coverage_weekday coverage_weekend vacation dates shifts
      pass_num current_max_target unders rest st'

/-- The pass loop (source lines 733-841): per pass, compute the operative
thresholds, the over- and under-assigned lists (sorted by deviation,
descending, stably), stop when either is empty or when a pass makes no
transfer. -/
def rebalancer_passes (shuffle : Nat → List (Date × String) → List (Date × String))
    (coverage_weekday coverage_weekend : List CoverageRequirement)
    (vacation : List (String × List Date)) (dates : List Date)
    (shifts : List (String × Shift)) (working : List Employee)
    (min_target max_target : Int) : List Nat → RebState → RebState
  | [], st => st
  | pass_num :: rest, st =>
    let threshold_adjustment : Int := max 0 (2 - (pass_num : Int) / 10)
    let current_max_target := max_target + threshold_adjustment
    let current_min_target := min_target - threshold_adjustment
    let over_assigned := working.filterMap (fun e =>
      if st.counts e.name > current_max_target then
        some (e, st.counts e.name - current_max_target)
      else none)
    let over_assigned := ssort (fun a b => decide (a.2 ≥ b.2)) over_assigned
    let under_assigned := working.filterMap (fun e =>
      if st.counts e.name < current_min_target then
        some (e, current_min_target - st.counts e.name)
      else none)
    let under_assigned := ssort (fun a b => decide (a.2 ≥ b.2)) under_assigned
    if over_assigned.isEmpty || under_assigned.isEmpty then st
    else
      let st' := rebalancer_over_loop shuffle coverage_weekday coverage_weekend vacation
        dates shifts pass_num current_max_target (under_assigned.map (·.1))
        (over_assigned.map (·.1)) st
      if st'.transfers = st.transfers then st'
      else
        rebalancer_passes shuffle coverage_weekday coverage_weekend vacation dates shifts
          working min_target max_target rest st'

/-- Source `rebalance_shift_assignments`. -/
def rebalance_shift_assignments (shuffle : Nat → List (Date × String) → List (Date × String))
    (shift_assignments : List (String × List (Date × String)))
    (employees : List Employee)
    (vacation_dates_by_employee : List (String × List Date))
    (coverage_weekday coverage_weekend : List CoverageRequirement)
    (dates : List Date) (shifts : List (String × Shift)) :
    List (String × List (Date × String)) :=
  let shift_counts : String → Int := fun n => ((dgetD shift_assignments n []).length : Int)
  let working_employees := employees.filter (fun e => decide (shift_counts e.name > 0))
  if working_employees.isEmpty then shift_assignments
  else
    let total_shifts : Int := (shift_assignments.map (fun p => (p.2.length : Int))).sum
    let avg_shifts : ℚ := (total_shifts : ℚ) / (working_employees.length : ℚ)
    let min_target : Int := avg_shifts.floor - 1
    let max_target : Int := avg_shifts.floor + 2
    (rebalancer_passes shuffle coverage_weekday coverage_weekend vacation_dates_by_employee
      dates shifts working_employees min_target max_target (List.range 30)
      { assignments := shift_assignments, counts := shift_counts, transfers := 0 }).assignments

/-! ## Tiered shift assigner (source lines 853-1140) -/

/-- One "could not fill all positions" diagnostic of the shift assigner
(source lines 1050-1054 and 1102-1106); `skill` is `none` for the
residual any-skill batch. -/
structure UnfilledReport where
  date : Date
  shift_id : String
  skill : Option String
  needed : Int
  filled : Nat
deriving DecidableEq

/-- The mutable tables of `assign_shifts_to_employees`, threaded as
state.  `assigned_today` is reset at the start of each date. -/
structure AsgState where
  shift_assignments : List (String × List (Date × String))
  hours_per_week : String × Date → ℚ
  total_hours : String → ℚ
  shift_counts : String → Int
  consecutive_work_days : String → Int
  last_work_date : String → Option Date
  assigned_today : List String
  reports : List UnfilledReport

/-- Source `create_sort_key_for_employee` (lines 931-935). -/
def create_sort_key_for_employee (st : AsgState) (ws : Date) (shift_hours : ℚ)
    (emp : Employee) : Bool × ℚ × Int × ℚ × String :=
  let week_hours := st.hours_per_week (emp.name, ws)
  (decide (week_hours + shift_hours > (emp.weekly_target_hours : ℚ)),
   week_hours, st.shift_counts emp.name, st.total_hours emp.name, emp.name)

/-- Lexicographic order (with ties ≤) on the sort key, i.e. Python's
tuple order; `False < True` as in Python. -/
def sort_key_le (k1 k2 : Bool × ℚ × Int × ℚ × String) : Bool :=
  if k1.1 ≠ k2.1 then decide (k1.1 = false)
  else if k1.2.1 ≠ k2.2.1 then decide (k1.2.1 < k2.2.1)
  else if k1.2.2.1 ≠ k2.2.2.1 then decide (k1.2.2.1 < k2.2.2.1)
  else if k1.2.2.2.1 ≠ k2.2.2.2.1 then decide (k1.2.2.2.1 < k2.2.2.2.1)
  else decide (¬(k2.2.2.2.2 < k1.2.2.2.2))

/-- Stable sort of one tier by the fairness key (`tier.sort(key=...)`). -/
def sort_tier (st : AsgState) (ws : Date) (shift_hours : ℚ) (l : List Employee) :
    List Employee :=
  ssort (fun e1 e2 => sort_key_le (create_sort_key_for_employee st ws shift_hours e1)
    (create_sort_key_for_employee st ws shift_hours e2)) l

/-- The state updates of one assignment (source lines 1032-1047 and
1085-1099). -/
def record_assignment (st : AsgState) (emp : Employee) (date : Date) (shift_id : String)
    (shift_hours : ℚ) (ws : Date) : AsgState :=
  { shift_assignments := dinsert st.shift_assignments emp.name
      (dinsert (dgetD st.shift_assignments emp.name []) date shift_id),
    hours_per_week := fun k =>
      if k = (emp.name, ws) then st.hours_per_week k + shift_hours else st.hours_per_week k,
    total_hours := fun n =>
      if n = emp.name then st.total_hours n + shift_hours else st.total_hours n,
    shift_counts := fun n =>
      if n = emp.name then st.shift_counts n + 1 else st.shift_counts n,
    consecutive_work_days := fun n =>
      if n = emp.name then
        match st.last_work_date emp.name with
        | some d => if date - d = 1 then st.consecutive_work_days emp.name + 1 else 1
        | none => 1
      else st.consecutive_work_days n,
    last_work_date := fun n => if n = emp.name then some date else st.last_work_date n,
    assigned_today := st.assigned_today ++ [emp.name],
    reports := st.reports }

/-- Fill one slot batch (source lines 1002-1054 for a skilled batch,
1058-1106 for the residual any-skill batch): build the tiers, sort each
stably by the fairness key, concatenate 1‖2‖3, assign the first `needed`
candidates (the loop applies no further check, so a duplicated candidate
is assigned twice), and report when fewer than `needed` were assigned.
Returns the new state and the number of loop iterations that assigned
(the source's `assigned_count`). -/
def assign_slot (st : AsgState) (employees_available : List Employee) (date ws : Date)
    (shift_hours : ℚ) (shift_id : String) (required_skill : Option String)
    (needed : Int) : AsgState × Nat :=
  let t := get_valid_candidates_tiered st.hours_per_week st.consecutive_work_days
    st.assigned_today ws shift_hours required_skill employees_available
  let tier1 := sort_tier st ws shift_hours t.1
  let tier2 := sort_tier st ws shift_hours t.2.1
  let tier3 := sort_tier st ws shift_hours t.2.2
  let candidates := tier1 ++ tier2 ++ tier3
  let chosen := candidates.take needed.toNat
  let st1 := chosen.foldl (fun s e => record_assignment s e date shift_id shift_hours ws) st
  let st2 :=
    if (chosen.length : Int) < needed then
      { st1 with reports := st1.reports ++ [⟨date, shift_id, required_skill, needed, chosen.length⟩] }
    else st1
  (st2, chosen.length)

/-- Process one shift's requirement group on one date (source lines
983-1106): total head-count, the overwrite-built skill-needs map, the
skilled batches in map order, then the residual any-skill batch. -/
def process_shift (st : AsgState) (employees_available : List Employee) (date ws : Date)
    (reqs : List CoverageRequirement) (shift_id : String)
    (shifts : List (String × Shift)) : AsgState :=
  let total_needed : Int := (reqs.map (·.required)).sum
  let skill_needs := assigner_skill_needs reqs
  let shift_hours := calculate_shift_hours shift_id shifts
  let r := skill_needs.foldl
    (fun (acc : AsgState × Nat) p =>
      let r1 := assign_slot acc.1 employees_available date ws shift_hours shift_id
        (some p.1) p.2
      (r1.1, acc.2 + r1.2))
    (st, 0)
  let remaining_needed : Int := total_needed - (r.2 : Int)
  if remaining_needed > 0 then
    (assign_slot r.1 employees_available date ws shift_hours shift_id none remaining_needed).1
  else r.1

/-- Python `sorted(shift_reqs.keys())`: the distinct shift ids of the
day's requirements, sorted ascending. -/
def sorted_shift_ids (requirements : List CoverageRequirement) : List String :=
  ssort (fun a b => decide (¬(b < a))) ((requirements.map (·.shift_id)).eraseDups)

/-- Process one date (source lines 963-1106). -/
def process_date (employees : List Employee) (vacation : List (String × List Date))
    (coverage_weekday coverage_weekend : List CoverageRequirement)
    (shifts : List (String × Shift)) (st : AsgState) (date : Date) : AsgState :=
  let requirements := if is_weekend date then coverage_weekend else coverage_weekday
  let ws := week_start date
  let employees_available := employees.filter
    (fun e => !((dgetD vacation e.name []).contains date))
  let st := { st with assigned_today := [] }
  (sorted_shift_ids requirements).foldl
    (fun s sid => process_shift s employees_available date ws
      (requirements.filter (fun r => decide (r.shift_id = sid))) sid shifts)
    st

/-- Source `assign_shifts_to_employees`: run the per-date assignment, then
the rebalancer.  Returns the final assignment together with the list of
"could not fill" reports the per-date phase printed. -/
def assign_shifts_to_employees (shuffle : Nat → List (Date × String) → List (Date × String))
    (employees : List Employee) (vacation_schedule : List (String × List Date))
    (coverage_weekday coverage_weekend : List CoverageRequirement)
    (dates : List Date) (shifts : List (String × Shift)) :
    List (String × List (Date × String)) × List UnfilledReport :=
  let st0 : AsgState :=
    { shift_assignments := employees.foldl (fun d e => dinsert d e.name []) [],
      hours_per_week := fun _ => 0,
      total_hours := fun _ => 0,
      shift_counts := fun _ => 0,
      consecutive_work_days := fun _ => 0,
      last_work_date := fun _ => none,
      assigned_today := [],
      reports := [] }
  let st := dates.foldl
    (process_date employees vacation_schedule coverage_weekday coverage_weekend shifts) st0
  let final := rebalance_shift_assignments shuffle st.shift_assignments employees
    vacation_schedule coverage_weekday coverage_weekend dates shifts
  (final, st.reports)

/-- Number of employees assigned to `shift_id` on `date` that carry
`skill`, in an assignment map. -/
def count_assigned_with_skill (assignments : List (String × List (Date × String)))
    (employees : List Employee) (date : Date) (shift_id : String) (skill : String) : Nat :=
  (employees.filter (fun e => e.skills.contains skill &&
    decide (dget? (dgetD assignments e.name []) date = some shift_id))).length

/-- Number of entries of the assignment map holding `shift_id` on
`date` (one per employee name). -/
def count_assigned (assignments : List (String × List (Date × String)))
    (date : Date) (shift_id : String) : Nat :=
  (assignments.filter (fun p => decide (dget? p.2 date = some shift_id))).length

/-- Indicator: does this per-employee map assign `shift_id` on `date`? -/
def entry_ind (M : List (Date × String)) (date : Date) (shift_id : String) : Nat :=
  if dget? M date = some shift_id then 1 else 0

/-- The identity stand-in for the seeded shuffle, used for concrete runs
in which the reference implementation never reaches a shuffle call. -/
def id_shuffle : Nat → List (Date × String) → List (Date × String) := fun _ l => l

/-! ## Concrete inputs for the skill-satisfaction run (claim C1)

Three employees: H carries skill B only, V and U carry skill A only.
One shift S (09:00-17:00, 8 h) with two weekday requirements naming
different skills: (S, 1, A) listed before (S, 1, B).  The 15 dates are
weekdays (day 0 is a Monday); U is on vacation except on days 0 and 1,
V is on vacation on day 0 only. -/

def c1_emp_H : Employee := ⟨"E1", "H", ["B"], 37, 48⟩
def c1_emp_V : Employee := ⟨"E2", "V", ["A"], 37, 48⟩
def c1_emp_U : Employee := ⟨"E3", "U", ["A"], 37, 48⟩
def c1_employees : List Employee := [c1_emp_H, c1_emp_V, c1_emp_U]
def c1_dates : List Date := [0, 1, 7, 8, 9, 10, 11, 14, 15, 16, 17, 18, 21, 22, 23]
def c1_vacation : List (String × List Date) :=
  [("H", []), ("V", [0]), ("U", [7, 8, 9, 10, 11, 14, 15, 16, 17, 18, 21, 22, 23])]
def c1_coverage_weekday : List CoverageRequirement :=
  [⟨"Weekday", "S", 1, "A"⟩, ⟨"Weekday", "S", 1, "B"⟩]
def c1_shifts : List (String × Shift) := [("S", ⟨"1", "S", "09:00", "17:00", "Day"⟩)]
def c1_result : List (String × List (Date × String)) × List UnfilledReport :=
  assign_shifts_to_employees id_shuffle c1_employees c1_vacation c1_coverage_weekday []
    c1_dates c1_shifts

/-! ## Concrete inputs for the rebalancer hour-cap run (claim C5)

A hand-crafted assignment (as in the specification's scenario 4): shift
C is 00:00-00:00 (24 h by the wrap rule), shift W has the parseable but
nonsensical end time "-200:00", giving it a *negative* duration of
−176 h.  Employee A holds 13 shifts (days 0-12, with W on day 6),
employee B holds one. -/

def c5_emp_A : Employee := ⟨"E1", "A", [], 37, 48⟩
def c5_emp_B : Employee := ⟨"E2", "B", [], 37, 48⟩
def c5_employees : List Employee := [c5_emp_A, c5_emp_B]
def c5_dates : List Date := [0, 1, 2, 3, 4, 5, 6, 7, 8, 9, 10, 11, 12, 13]
def c5_shifts : List (String × Shift) :=
  [("C", ⟨"1", "C", "00:00", "00:00", "Day"⟩), ("W", ⟨"2", "W", "00:00", "-200:00", "Day"⟩)]
def c5_coverage_weekday : List CoverageRequirement :=
  [⟨"Weekday", "C", 1, "None"⟩, ⟨"Weekday", "W", 1, "None"⟩]
def c5_coverage_weekend : List CoverageRequirement :=
  [⟨"Weekend", "C", 1, "None"⟩, ⟨"Weekend", "W", 1, "None"⟩]
def c5_vacation : List (String × List Date) := [("A", []), ("B", [])]
def c5_assignments : List (String × List (Date × String)) :=
  [("A", [(0, "C"), (1, "C"), (2, "C"), (3, "C"), (4, "C"), (5, "C"), (6, "W"),
          (7, "C"), (8, "C"), (9, "C"), (10, "C"), (11, "C"), (12, "C")]),
   ("B", [(13, "C")])]
def c5_result : List (String × List (Date × String)) :=
  rebalance_shift_assignments id_shuffle c5_assignments c5_employees c5_vacation
    c5_coverage_weekday c5_coverage_weekend c5_dates c5_shifts

/-! ## Vacation block allocator (`optimize_vacation_schedule`, source lines 199-596)

Prints are dropped.  The seeded per-attempt `random.shuffle(group1);
random.shuffle(group2)` (one stream seeded `42 + attempt`) is the
`gshuffle2` parameter.  The source's `float('inf')` initial
`best_max_spread` is modelled as the integer 2: the only spreads ever
compared against it are accepted ones (≤ 1), and every integer ≤ 1 is
below both 2 and infinity, so all comparisons coincide. -/

/-- Hour-cap relation between two rebalancer states: no employee's
week-bucket exceeds the larger of its old value and that employee's
`max_hours_per_week`. -/
def RebHourRel (employees : List Employee) (dates : List Date)
    (shifts : List (String × Shift)) (st st' : RebState) : Prop :=
  ∀ e ∈ employees, ∀ d : Date,
    rebalancer_week_hours st'.assignments dates shifts e.name d ≤
      max (rebalancer_week_hours st.assignments dates shifts e.name d)
        (e.max_hours_per_week : ℚ)

/-- Slot-count preservation between two rebalancer states. -/
def RebCountRel (st st' : RebState) : Prop :=
  ∀ (d : Date) (s : String),
    count_assigned st'.assignments d s = count_assigned st.assignments d s

/-- Well-formedness of a rebalancer state: the outer keys (names) and
each inner key list (dates) are duplicate-free, as for Python dicts. -/
def RebWF (st : RebState) : Prop :=
  (dkeys st.assignments).Nodup ∧ ∀ p ∈ st.assignments, (dkeys p.2).Nodup

/-! # Theorems -/

/-- Claim C7: on a shift whose id resolves and whose `start`/`end` both
parse as `HH:MM`, `calculate_shift_hours` returns (end − start) minutes
divided by 60, adding 24 hours when end ≤ start; an absent shift id or a
malformed time string yields the fixed default 8.0 without an error. -/
theorem C7_shift_duration_helper (shift_id : String) (shifts : List (String × Shift))
    (s : Shift) (sh sm eh em : Int) :
    (dget? shifts shift_id = some s →
      parseHM s.start = some (sh, sm) →
      parseHM s.stop = some (eh, em) →
      calculate_shift_hours shift_id shifts = specShiftHours (sh * 60 + sm) (eh * 60 + em)) ∧
    (dget? shifts shift_id = none →
      calculate_shift_hours shift_id shifts = DEFAULT_SHIFT_HOURS) ∧
    (dget? shifts shift_id = some s →
      (parseHM s.start = none ∨ parseHM s.stop = none) →
      calculate_shift_hours shift_id shifts = DEFAULT_SHIFT_HOURS) := by
  refine ⟨fun h1 h2 h3 => ?_, fun h1 => ?_, fun h1 h2 => ?_⟩
  · simp only [calculate_shift_hours, h1, h2, h3, specShiftHours]
    split <;> push_cast <;> ring_nf
  · simp only [calculate_shift_hours, h1]
  · rcases h2 with h2 | h2 <;> simp only [calculate_shift_hours, h1, h2] <;>
      rcases hs : parseHM s.start with _ | ⟨p⟩ <;> simp [hs]

unseal Rat.add Rat.sub Rat.mul Rat.inv Rat.ofScientific in
/-- Witness for C7 at the specification's own example: the overnight
shift N 22:00-06:00 has duration 8.0 h, an unknown id defaults to 8.0,
and a malformed end time defaults to 8.0. -/
theorem C7_shift_duration_helper_witness :
    calculate_shift_hours "N"
      [("N", ⟨"9", "N", "22:00", "06:00", "Night"⟩)] = 8 ∧
    calculate_shift_hours "missing"
      [("N", ⟨"9", "N", "22:00", "06:00", "Night"⟩)] = DEFAULT_SHIFT_HOURS ∧
    calculate_shift_hours "B"
      [("B", ⟨"7", "B", "22:00", "bogus", "Day"⟩), ("N", ⟨"9", "N", "22:00", "06:00", "Night"⟩)] =
      DEFAULT_SHIFT_HOURS := by
  refine ⟨?_, ?_, ?_⟩
  · have h := (C7_shift_duration_helper "N"
      [("N", ⟨"9", "N", "22:00", "06:00", "Night"⟩)]
      ⟨"9", "N", "22:00", "06:00", "Night"⟩ 22 0 6 0).1
      (by decide) (by decide) (by decide)
    rw [h]; decide
  · exact (C7_shift_duration_helper "missing"
      [("N", ⟨"9", "N", "22:00", "06:00", "Night"⟩)]
      ⟨"9", "N", "22:00", "06:00", "Night"⟩ 0 0 0 0).2.1 (by decide)
  · exact (C7_shift_duration_helper "B"
      [("B", ⟨"7", "B", "22:00", "bogus", "Day"⟩), ("N", ⟨"9", "N", "22:00", "06:00", "Night"⟩)]
      ⟨"7", "B", "22:00", "bogus", "Day"⟩ 22 0 0 0).2.2 (by decide) (Or.inr (by decide))

/-- Claim C10: a zero-length shift (identical well-formed start and end)
falls into the overnight-wrap branch, because the wrap fires on
end ≤ start with equality included, and so gets duration 24.0, not 0.0. -/
theorem C10_zero_length_shift_is_24h (shift_id : String) (shifts : List (String × Shift))
    (s : Shift) (h m : Int)
    (h1 : dget? shifts shift_id = some s)
    (h2 : parseHM s.start = some (h, m))
    (h3 : s.stop = s.start) :
    calculate_shift_hours shift_id shifts = 24 := by
  simp only [calculate_shift_hours, h1, h3, h2]
  norm_num

/-- Witness for C10: a shift 12:00-12:00 yields 24.0 h. -/
theorem C10_zero_length_shift_is_24h_witness :
    calculate_shift_hours "Z" [("Z", ⟨"1", "Z", "12:00", "12:00", "Day"⟩)] = 24 :=
  C10_zero_length_shift_is_24h "Z" [("Z", ⟨"1", "Z", "12:00", "12:00", "Day"⟩)]
    ⟨"1", "Z", "12:00", "12:00", "Day"⟩ 12 0 (by decide) (by decide) (by decide)

/-! ## Association-list lemmas -/

section PyDictLemmas

variable {α β : Type} [DecidableEq α]

theorem dget?_nil (k : α) : dget? ([] : List (α × β)) k = none := rfl

theorem dget?_cons (p : α × β) (l : List (α × β)) (k : α) :
    dget? (p :: l) k = if p.1 = k then some p.2 else dget? l k := by
  by_cases h : p.1 = k <;> simp [dget?, List.find?, h]

theorem dget?_dinsert_self (l : List (α × β)) (k : α) (v : β) :
    dget? (dinsert l k v) k = some v := by
  induction l with
  | nil => simp [dinsert, dget?_cons]
  | cons p rest ih =>
    by_cases h : p.1 = k
    · simp [dinsert, h, dget?_cons]
    · simp [dinsert, h, dget?_cons, ih]

theorem dget?_dinsert_ne (l : List (α × β)) (k k' : α) (v : β) (hne : k' ≠ k) :
    dget? (dinsert l k v) k' = dget? l k' := by
  have hkk : ¬(k = k') := fun h => hne h.symm
  induction l with
  | nil => simp [dinsert, dget?_cons, dget?_nil, hkk]
  | cons p rest ih =>
    by_cases h : p.1 = k
    · have hp : ¬(p.1 = k') := fun hc => hkk (h ▸ hc)
      simp [dinsert, if_pos h, dget?_cons, hkk, hp]
    · simp only [dinsert, if_neg h]
      rw [dget?_cons, dget?_cons, ih]

end PyDictLemmas

/-! ## Claim C2: the three tiers -/

unseal Rat.add Rat.sub Rat.mul Rat.inv Rat.ofScientific in
/-- Counterexample for claim C2.  The claim states the three tiers
partition the candidate pool, every candidate lying in exactly one tier,
so that the concatenation Tier1‖Tier2‖Tier3 contains each candidate once
and taking the first `needed` elements never picks the same employee
twice.  In fact `get_valid_candidates_tiered` appends every eligible
candidate to Tier 3 before the Tier 1/2 checks: for a pool of one
employee who satisfies all constraints, the concatenation contains that
employee twice, and the assignment loop, which takes the first `needed`
candidates with no further check, would assign the same employee twice
for `needed = 2`. -/
theorem C2_tier_partition_counterexample :
    (fun t : List Employee × List Employee × List Employee => t.1 ++ t.2.1 ++ t.2.2)
        (get_valid_candidates_tiered (fun _ => 0) (fun _ => 0) [] 0 8 none
          [⟨"E1", "E", ["A"], 37, 48⟩]) =
      [⟨"E1", "E", ["A"], 37, 48⟩, ⟨"E1", "E", ["A"], 37, 48⟩] ∧
    ((fun t : List Employee × List Employee × List Employee => t.1 ++ t.2.1 ++ t.2.2)
        (get_valid_candidates_tiered (fun _ => 0) (fun _ => 0) [] 0 8 none
          [⟨"E1", "E", ["A"], 37, 48⟩])).take 2 =
      [⟨"E1", "E", ["A"], 37, 48⟩, ⟨"E1", "E", ["A"], 37, 48⟩] := by
  exact ⟨by decide, by decide⟩

/-- Claim C2 as amended: Tier 3 is the *entire* eligible pool (the
available employees not yet assigned today, optionally filtered by the
required skill); Tier 1 and Tier 2 are the disjoint sublists of that pool
meeting the strict respectively moderate constraints.  Hence Tiers 1 and
2 each repeat inside Tier 3, the concatenation Tier1‖Tier2‖Tier3 lists a
Tier-1 or Tier-2 candidate twice, and taking the first `needed` elements
can select the same employee more than once for one slot batch. -/
theorem C2_amended_tier3_is_whole_pool (hours_per_week : String × Date → ℚ)
    (consecutive_work_days : String → Int) (assigned_today : List String)
    (ws : Date) (shift_hours : ℚ) (required_skill : Option String)
    (available : List Employee) :
    (get_valid_candidates_tiered hours_per_week consecutive_work_days assigned_today
        ws shift_hours required_skill available).2.2 =
      available.filter (tier_eligible assigned_today required_skill) ∧
    (get_valid_candidates_tiered hours_per_week consecutive_work_days assigned_today
        ws shift_hours required_skill available).1 =
      available.filter (fun e => tier_eligible assigned_today required_skill e &&
        tier12_hard hours_per_week consecutive_work_days ws shift_hours e &&
        tier1_soft hours_per_week ws shift_hours e) ∧
    (get_valid_candidates_tiered hours_per_week consecutive_work_days assigned_today
        ws shift_hours required_skill available).2.1 =
      available.filter (fun e => tier_eligible assigned_today required_skill e &&
        tier12_hard hours_per_week consecutive_work_days ws shift_hours e &&
        !tier1_soft hours_per_week ws shift_hours e) ∧
    (∀ e : Employee,
      ¬(e ∈ (get_valid_candidates_tiered hours_per_week consecutive_work_days assigned_today
          ws shift_hours required_skill available).1 ∧
        e ∈ (get_valid_candidates_tiered hours_per_week consecutive_work_days assigned_today
          ws shift_hours required_skill available).2.1)) := by
  have key : ∀ l : List Employee,
      (get_valid_candidates_tiered hours_per_week consecutive_work_days assigned_today
          ws shift_hours required_skill l).2.2 =
        l.filter (tier_eligible assigned_today required_skill) ∧
      (get_valid_candidates_tiered hours_per_week consecutive_work_days assigned_today
          ws shift_hours required_skill l).1 =
        l.filter (fun e => tier_eligible assigned_today required_skill e &&
          tier12_hard hours_per_week consecutive_work_days ws shift_hours e &&
          tier1_soft hours_per_week ws shift_hours e) ∧
      (get_valid_candidates_tiered hours_per_week consecutive_work_days assigned_today
          ws shift_hours required_skill l).2.1 =
        l.filter (fun e => tier_eligible assigned_today required_skill e &&
          tier12_hard hours_per_week consecutive_work_days ws shift_hours e &&
          !tier1_soft hours_per_week ws shift_hours e) := by
    intro l
    induction l with
    | nil => exact ⟨rfl, rfl, rfl⟩
    | cons e rest ih =>
      obtain ⟨ih3, ih1, ih2⟩ := ih
      by_cases h1 : tier_eligible assigned_today required_skill e
      · by_cases h2 : tier12_hard hours_per_week consecutive_work_days ws shift_hours e
        · by_cases h3 : tier1_soft hours_per_week ws shift_hours e
          · simp [get_valid_candidates_tiered, h1, h2, h3, ih1, ih2, ih3, List.filter]
          · simp [get_valid_candidates_tiered, h1, h2, h3, ih1, ih2, ih3, List.filter]
        · simp [get_valid_candidates_tiered, h1, h2, ih1, ih2, ih3, List.filter]
      · simp [get_valid_candidates_tiered, h1, ih1, ih2, ih3, List.filter]
  obtain ⟨k3, k1, k2⟩ := key available
  refine ⟨k3, k1, k2, fun e he => ?_⟩
  rw [k1, k2] at he
  obtain ⟨he1, he2⟩ := he
  simp only [List.mem_filter, Bool.and_eq_true, Bool.not_eq_true'] at he1 he2
  exact absurd he1.2 (by simp [he2.2])

/-! ## Claim C3: the assigner's skill-needs map vs the coverage oracle -/

theorem getLast?_cons_or {γ : Type} (a : γ) (l : List γ) :
    (a :: l).getLast? = l.getLast?.or (some a) := by
  cases l with
  | nil => rfl
  | cons b t =>
    rcases h : (b :: t).getLast? with _ | v
    · simp [List.getLast?_eq_none_iff] at h
    · simp [List.getLast?_cons_cons, h, Option.or]

theorem option_or_none {γ : Type} (x : Option γ) : x.or none = x := by
  cases x <;> rfl

theorem option_or_some_left {γ : Type} (v : γ) (y : Option γ) :
    (some v : Option γ).or y = some v := rfl

theorem option_or_assoc {γ : Type} (x y z : Option γ) :
    (x.or y).or z = x.or (y.or z) := by
  cases x <;> rfl

/-- The skill filter picking, for a fixed skill `s`, the requirements
that contribute to `s`'s entry in either skill-needs map. -/
def skillMatches (s : String) (r : CoverageRequirement) : Bool :=
  decide (r.required_skill = s) && decide (s ≠ "None")

theorem assigner_skill_needs_foldl (s : String) (reqs : List CoverageRequirement) :
    ∀ acc : List (String × Int),
      dget? (reqs.foldl
        (fun d req =>
          if req.required_skill ≠ "None" then dinsert d req.required_skill req.required else d)
        acc) s =
      (((reqs.filter (skillMatches s)).map (·.required)).getLast?).or (dget? acc s) := by
  induction reqs with
  | nil => intro acc; simp
  | cons r rest ih =>
    intro acc
    rw [List.foldl_cons]
    by_cases h1 : r.required_skill = "None"
    · have hp : skillMatches s r = false := by
        by_cases h2 : r.required_skill = s
        · have hs : s = "None" := h2.symm.trans h1
          simp [skillMatches, hs]
        · simp [skillMatches, h2]
      have hcond : ¬(r.required_skill ≠ "None") := fun h => h h1
      rw [if_neg hcond]
      simp only [List.filter_cons, hp, Bool.false_eq_true, if_false]
      exact ih acc
    · by_cases h2 : r.required_skill = s
      · have hsn : s ≠ "None" := h2 ▸ h1
        have hp : skillMatches s r = true := by simp [skillMatches, h2, hsn]
        rw [if_pos h1, ih, h2, dget?_dinsert_self]
        simp only [List.filter_cons, hp, if_true, List.map_cons, getLast?_cons_or,
          option_or_assoc, option_or_some_left]
      · have hp : skillMatches s r = false := by simp [skillMatches, h2]
        rw [if_pos h1, ih,
          dget?_dinsert_ne acc r.required_skill s r.required (fun h => h2 h.symm)]
        simp only [List.filter_cons, hp, Bool.false_eq_true, if_false]

theorem oracle_skill_needs_foldl (s : String) (reqs : List CoverageRequirement) :
    ∀ acc : List (String × Int),
      dget? (reqs.foldl
        (fun d req =>
          if req.required_skill ≠ "None" then dinsertAdd d req.required_skill 0 req.required
          else d)
        acc) s =
      (if (reqs.filter (skillMatches s)) = [] then dget? acc s
       else some (dgetD acc s 0 + ((reqs.filter (skillMatches s)).map (·.required)).sum)) := by
  induction reqs with
  | nil => intro acc; simp
  | cons r rest ih =>
    intro acc
    rw [List.foldl_cons]
    by_cases h1 : r.required_skill = "None"
    · have hp : skillMatches s r = false := by
        by_cases h2 : r.required_skill = s
        · have hs : s = "None" := h2.symm.trans h1
          simp [skillMatches, hs]
        · simp [skillMatches, h2]
      have hcond : ¬(r.required_skill ≠ "None") := fun h => h h1
      rw [if_neg hcond]
      simp only [List.filter_cons, hp, Bool.false_eq_true, if_false]
      exact ih acc
    · by_cases h2 : r.required_skill = s
      · have hsn : s ≠ "None" := h2 ▸ h1
        have hp : skillMatches s r = true := by simp [skillMatches, h2, hsn]
        rw [if_pos h1, ih]
        have hg : dget? (dinsertAdd acc r.required_skill 0 r.required) s =
            some (dgetD acc s 0 + r.required) := by
          rw [dinsertAdd, h2, dget?_dinsert_self]
        have hgD : dgetD (dinsertAdd acc r.required_skill 0 r.required) s 0 =
            dgetD acc s 0 + r.required := by
          rw [dgetD, hg]; rfl
        by_cases hrest : rest.filter (skillMatches s) = []
        · simp [List.filter_cons, hp, hrest, hg]
        · simp [List.filter_cons, hp, hrest, hgD, add_assoc]
      · have hp : skillMatches s r = false := by simp [skillMatches, h2]
        have hne : s ≠ r.required_skill := fun h => h2 h.symm
        rw [if_pos h1, ih]
        have hg : dget? (dinsertAdd acc r.required_skill 0 r.required) s = dget? acc s := by
          rw [dinsertAdd, dget?_dinsert_ne _ _ _ _ hne]
        have hgD : dgetD (dinsertAdd acc r.required_skill 0 r.required) s 0 = dgetD acc s 0 := by
          rw [dgetD, hg]; rfl
        simp only [List.filter_cons, hp, Bool.false_eq_true, if_false, hg, hgD]

/-- Counterexample for claim C3.  The claim states the assigner's
per-shift skill-needs map is computed as in the coverage oracle: two
requirements for the same shift and skill contribute the *sum* of their
head-counts.  In fact the assigner overwrites
(`skill_needs[req.required_skill] = req.required`): for requirements
(S, 2, A) and (S, 3, A) it records 3 where the oracle records 5. -/
theorem C3_skill_needs_counterexample :
    dget? (assigner_skill_needs
      [⟨"Weekday", "S", 2, "A"⟩, ⟨"Weekday", "S", 3, "A"⟩]) "A" = some 3 ∧
    dget? (calculate_min_employees_needed
      [⟨"Weekday", "S", 2, "A"⟩, ⟨"Weekday", "S", 3, "A"⟩]).2 "A" = some 5 ∧
    (3 : Int) ≠ 5 := by
  exact ⟨by decide, by decide, by decide⟩

/-- Claim C3 as amended: for every skill, the assigner's per-shift
skill-needs entry is the head-count of the *last* requirement naming
that skill (plain overwrite), whereas the coverage oracle's entry is the
*sum* of the head-counts of all requirements naming it; the two agree
only when no skill repeats within the shift's requirement group. -/
theorem C3_amended_skill_needs_overwrite (reqs : List CoverageRequirement) (s : String) :
    dget? (assigner_skill_needs reqs) s =
      ((reqs.filter (skillMatches s)).map (·.required)).getLast? ∧
    dget? (calculate_min_employees_needed reqs).2 s =
      (if (reqs.filter (skillMatches s)) = [] then none
       else some (((reqs.filter (skillMatches s)).map (·.required)).sum)) := by
  constructor
  · rw [assigner_skill_needs, assigner_skill_needs_foldl s reqs []]
    simp [dget?_nil, option_or_none]
  · rw [calculate_min_employees_needed, oracle_skill_needs_foldl s reqs []]
    simp [dget?_nil, dgetD]

/-! ## Claim C4: block-length search floors -/

theorem mem_pyRangeDesc (a b x : Int) : x ∈ pyRangeDesc a b ↔ b < x ∧ x ≤ a := by
  simp only [pyRangeDesc, List.mem_map, List.mem_range]
  constructor
  · rintro ⟨i, hi, rfl⟩
    omega
  · rintro ⟨h1, h2⟩
    exact ⟨(a - x).toNat, by omega, by omega⟩

theorem mem_pyRangeAsc (a b x : Int) : x ∈ pyRangeAsc a b ↔ a ≤ x ∧ x < b := by
  simp only [pyRangeAsc, List.mem_map, List.mem_range]
  constructor
  · rintro ⟨i, hi, rfl⟩
    omega
  · rintro ⟨h1, h2⟩
    exact ⟨(x - a).toNat, by omega, by omega⟩

/-- Counterexample for claim C4.  The claim states the main branch's
block-length search goes all the way down to a floor of 1, every length
`1 ≤ L ≤ min(target_days, max_block)` being tried.  With the reference
parameters (35-day period, so `mid_point = 17`, second half 18,
`target_days = 21`) the lengths actually tried are 17 down to
`max(1, 17 - 8) = 9`: length 1 (and lengths 8 and below) are never
tried, although `1 ≤ min(21, 17)`. -/
theorem C4_main_branch_floor_counterexample :
    (1 : Int) ≤ min 21 (min 17 18) ∧
    (1 : Int) ∉ main_branch_block_sizes 21 17 18 ∧
    (8 : Int) ∉ main_branch_block_sizes 21 17 18 ∧
    main_branch_block_sizes 21 17 18 = [17, 16, 15, 14, 13, 12, 11, 10, 9] := by
  exact ⟨by decide, by decide, by decide, by decide⟩

/-- Claim C4 as amended: one attempt of the main branch tries exactly the
block lengths from `min(target_days, max_block)` down to
`max(1, max_block - 8)` — a floor of `max(1, max_block - 8)`, which
equals 1 only when `max_block ≤ 9` — while the fallback branch tries
`target_days` down to 7. -/
theorem C4_amended_block_length_floors (target_days mid_point rest_half L : Int) :
    (L ∈ main_branch_block_sizes target_days mid_point rest_half ↔
      max 1 (min mid_point rest_half - 8) ≤ L ∧
        L ≤ min target_days (min mid_point rest_half)) ∧
    (L ∈ fallback_block_sizes target_days ↔ 7 ≤ L ∧ L ≤ target_days) := by
  constructor
  · simp only [main_branch_block_sizes, List.mem_filter, mem_pyRangeDesc,
      decide_eq_true_eq]
    omega
  · simp only [fallback_block_sizes, mem_pyRangeDesc]
    omega

/-! ## Claim C1: skill satisfaction after rebalancing -/

set_option maxRecDepth 100000 in
unseal Rat.add Rat.sub Rat.mul Rat.inv Rat.ofScientific in
/-- Counterexample for claim C1.  On the concrete input `c1_*` (shift S
with two weekday requirements naming different skills, (S,1,A) before
(S,1,B)), the per-date assignment fills both slots on every day and
reports nothing unfilled; the rebalancer then (pass 0, before any
shuffle) moves H's day-1 assignment of S to U, checking U only against
skill A — the first non-Any skill recorded for S — although H was the
only B-carrier on S that day.  Afterwards the requirement (S, 1, B) on
date 1 is covered by no assigned B-carrier at all, refuting the claimed
invariant and in particular the claim that every rebalancer transfer
keeps the assigned employee carrying the required skill when several
requirements for the same shift name different skills. -/
theorem C1_skill_satisfaction_counterexample :
    c1_result.2 = [] ∧
    (⟨"Weekday", "S", 1, "B"⟩ : CoverageRequirement) ∈ c1_coverage_weekday ∧
    is_weekend 1 = false ∧
    count_assigned_with_skill c1_result.1 c1_employees 1 "S" "B" = 0 := by
  exact ⟨by decide, by decide, by decide, by decide⟩

/-- Claim C1 as amended: a rebalancer transfer checks the receiving
employee against `skill_needed` only — the *first* non-Any skill among
the shift's requirements for that day.  Whenever a transfer is accepted
with a recorded skill, the receiving employee carries that skill, had no
shift on that date, and is not on vacation then; no check is made for
any further skills named by other requirements of the same shift, so
the I4 count for those skills can drop (see the counterexample). -/
theorem C1_amended_transfer_checks_first_skill
    (vacation : List (String × List Date))
    (assignments : List (String × List (Date × String)))
    (dates : List Date) (shifts : List (String × Shift)) (pass_num : Nat)
    (date : Date) (shift_id : String) (sk : String) (under_emp : Employee)
    (h : transfer_acceptable vacation assignments dates shifts pass_num date shift_id
      (some sk) under_emp = true) :
    sk ∈ under_emp.skills ∧
    dget? (dgetD assignments under_emp.name []) date = none ∧
    (dgetD vacation under_emp.name []).contains date = false := by
  rw [transfer_acceptable] at h
  simp only [Bool.and_eq_true, Bool.not_eq_true', Option.isNone_iff_eq_none] at h
  exact ⟨by simpa using h.1.2, h.1.1.2, h.1.1.1⟩

unseal Rat.add Rat.sub Rat.mul Rat.inv Rat.ofScientific in
/-- Witness for the amended C1 at a concrete accepted transfer. -/
theorem C1_amended_transfer_checks_first_skill_witness :
    transfer_acceptable c1_vacation [] [] c1_shifts 0 5 "S" (some "A") c1_emp_U = true ∧
    "A" ∈ c1_emp_U.skills := by
  refine ⟨by decide, ?_⟩
  exact (C1_amended_transfer_checks_first_skill c1_vacation [] [] c1_shifts 0 5 "S" "A"
    c1_emp_U (by decide)).1

/-! ## Claim C5: the hard hour cap under rebalancing -/

set_option maxRecDepth 100000 in
unseal Rat.add Rat.sub Rat.mul Rat.inv Rat.ofScientific in
/-- Counterexample for claim C5.  The transfer guard bounds only the
*receiving* employee's week-bucket; removing a shift from the
over-assigned employee can *raise* that employee's bucket when the shift
has a negative computed duration, which the parseable but nonsensical
end time "-200:00" produces (−176 h).  On the hand-crafted input `c5_*`,
employee A's Monday week-bucket is −32 h ≤ 48 h before rebalancing;
pass 0 transfers (0, C) and then (6, W) to B, leaving A's bucket at
120 h — far above A's `max_hours_per_week` of 48 — so rebalancing
*raised* a week-bucket above the hard cap. -/
theorem C5_hour_cap_counterexample :
    rebalancer_week_hours c5_assignments c5_dates c5_shifts "A" 0 = -32 ∧
    rebalancer_week_hours c5_result c5_dates c5_shifts "A" 0 = 120 ∧
    ((c5_emp_A.max_hours_per_week : ℚ) < 120 ∧ (-32 : ℚ) ≤ (c5_emp_A.max_hours_per_week : ℚ)) := by
  exact ⟨by decide, by decide, by decide, by decide⟩

/-! ## Further association-list lemmas -/

section PyDictLemmas2

variable {α β : Type} [DecidableEq α]

theorem dget?_ddel (l : List (α × β)) (k k' : α) :
    dget? (ddel l k) k' = if k' = k then none else dget? l k' := by
  induction l with
  | nil =>
    simp only [ddel, List.filter_nil, dget?_nil]
    split <;> rfl
  | cons p rest ih =>
    by_cases hp : p.1 = k
    · have : ddel (p :: rest) k = ddel rest k := by
        simp [ddel, List.filter_cons, hp]
      rw [this, ih]
      by_cases hk : k' = k
      · simp [hk]
      · have hpk : ¬(p.1 = k') := fun h => hk (h ▸ hp ▸ rfl)
        simp [hk, dget?_cons, hpk]
    · have : ddel (p :: rest) k = p :: ddel rest k := by
        simp [ddel, List.filter_cons, hp]
      rw [this]
      by_cases hpk : p.1 = k'
      · have hk : ¬(k' = k) := fun h => hp (hpk.trans h)
        simp [dget?_cons, hpk, hk]
      · rw [dget?_cons, if_neg hpk, ih, dget?_cons, if_neg hpk]

theorem mem_of_dget?_eq_some {l : List (α × β)} {k : α} {v : β}
    (h : dget? l k = some v) : (k, v) ∈ l := by
  rw [dget?] at h
  rcases hf : l.find? (fun p => decide (p.1 = k)) with _ | p
  · rw [hf] at h; cases h
  · rw [hf] at h
    have hp := List.find?_some hf
    have hm := List.mem_of_find?_eq_some hf
    simp only [decide_eq_true_eq] at hp
    have hv : p.2 = v := by simpa using h
    have : p = (k, v) := Prod.ext hp hv
    exact this ▸ hm

theorem dget?_eq_some_of_mem {l : List (α × β)} {k : α} {v : β}
    (hnd : (dkeys l).Nodup) (hm : (k, v) ∈ l) : dget? l k = some v := by
  induction l with
  | nil => cases hm
  | cons p rest ih =>
    rcases List.mem_cons.1 hm with h | h
    · rw [← h, dget?_cons, if_pos rfl]
    · have hk : k ∈ dkeys rest := by
        simp only [dkeys, List.mem_map]
        exact ⟨(k, v), h, rfl⟩
      have hnd' := hnd
      simp only [dkeys, List.map_cons, List.nodup_cons] at hnd'
      have hp : ¬(p.1 = k) := fun hc => hnd'.1 (hc ▸ hk)
      rw [dget?_cons, if_neg hp]
      exact ih hnd'.2 h

theorem mem_dinsert {l : List (α × β)} {k : α} {v : β} {q : α × β}
    (h : q ∈ dinsert l k v) : q ∈ l ∨ q = (k, v) := by
  induction l with
  | nil => simp only [dinsert] at h; simp at h; exact Or.inr h
  | cons p rest ih =>
    by_cases hp : p.1 = k
    · rw [dinsert, if_pos hp] at h
      rcases List.mem_cons.1 h with h | h
      · exact Or.inr h
      · exact Or.inl (List.mem_cons_of_mem _ h)
    · rw [dinsert, if_neg hp] at h
      rcases List.mem_cons.1 h with h | h
      · exact Or.inl (h ▸ List.mem_cons_self _ _)
      · rcases ih h with h | h
        · exact Or.inl (List.mem_cons_of_mem _ h)
        · exact Or.inr h

theorem mem_dkeys_dinsert {l : List (α × β)} {k : α} {v : β} {x : α} :
    x ∈ dkeys (dinsert l k v) ↔ x ∈ dkeys l ∨ x = k := by
  induction l with
  | nil => simp [dinsert, dkeys]
  | cons p rest ih =>
    by_cases hp : p.1 = k
    · rw [dinsert, if_pos hp]
      simp only [dkeys, List.map_cons, List.mem_cons]
      constructor
      · rintro (h | h)
        · exact Or.inr h
        · exact Or.inl (Or.inr h)
      · rintro ((h | h) | h)
        · exact Or.inl (hp ▸ h)
        · exact Or.inr h
        · exact Or.inl h
    · rw [dinsert, if_neg hp]
      simp only [dkeys, List.map_cons, List.mem_cons] at ih ⊢
      rw [ih]
      tauto

theorem nodup_dkeys_dinsert {l : List (α × β)} {k : α} {v : β}
    (h : (dkeys l).Nodup) : (dkeys (dinsert l k v)).Nodup := by
  induction l with
  | nil => simp [dinsert, dkeys]
  | cons p rest ih =>
    simp only [dkeys, List.map_cons, List.nodup_cons] at h
    by_cases hp : p.1 = k
    · rw [dinsert, if_pos hp]
      simp only [dkeys, List.map_cons, List.nodup_cons]
      exact ⟨fun hc => h.1 (hp ▸ hc), h.2⟩
    · rw [dinsert, if_neg hp]
      simp only [dkeys, List.map_cons, List.nodup_cons]
      refine ⟨fun hc => ?_, ih h.2⟩
      rcases mem_dkeys_dinsert.1 hc with hc | hc
      · exact h.1 hc
      · exact hp hc

theorem nodup_dkeys_ddel {l : List (α × β)} {k : α}
    (h : (dkeys l).Nodup) : (dkeys (ddel l k)).Nodup := by
  rw [dkeys] at h ⊢
  exact ((List.filter_sublist l).map (·.1)).nodup h

theorem dgetD_dinsert_self (l : List (α × β)) (k : α) (v d : β) :
    dgetD (dinsert l k v) k d = v := by
  rw [dgetD, dget?_dinsert_self]; rfl

theorem dgetD_dinsert_ne (l : List (α × β)) (k k' : α) (v d : β) (hne : k' ≠ k) :
    dgetD (dinsert l k v) k' d = dgetD l k' d := by
  rw [dgetD, dget?_dinsert_ne _ _ _ _ hne]; rfl

end PyDictLemmas2

/-! ## Week-hour sum lemmas -/

theorem sum_hours_on_ddel_le (M : List (Date × String)) (shifts : List (String × Shift))
    (k : Date) (hnn : ∀ sid, 0 ≤ calculate_shift_hours sid shifts) :
    ∀ ds : List Date, sum_hours_on (ddel M k) shifts ds ≤ sum_hours_on M shifts ds := by
  intro ds
  induction ds with
  | nil => exact le_refl 0
  | cons d rest ih =>
    rw [sum_hours_on, sum_hours_on]
    refine add_le_add ?_ ih
    rw [dget?_ddel]
    by_cases hd : d = k
    · rw [if_pos hd]
      rcases hM : dget? M d with _ | sid
      · exact le_refl 0
      · exact hnn sid
    · rw [if_neg hd]

theorem sum_hours_on_dinsert_not_mem (M : List (Date × String))
    (shifts : List (String × Shift)) (k : Date) (v : String) :
    ∀ ds : List Date, k ∉ ds →
      sum_hours_on (dinsert M k v) shifts ds = sum_hours_on M shifts ds := by
  intro ds
  induction ds with
  | nil => intro _; rfl
  | cons d rest ih =>
    intro hk
    have hd : d ≠ k := fun h => hk (h ▸ List.mem_cons_self _ _)
    rw [sum_hours_on, sum_hours_on, ih (fun h => hk (List.mem_cons_of_mem _ h)),
      dget?_dinsert_ne _ _ _ _ hd]

theorem sum_hours_on_dinsert_mem (M : List (Date × String))
    (shifts : List (String × Shift)) (k : Date) (v : String) :
    ∀ ds : List Date, ds.Nodup → k ∈ ds → dget? M k = none →
      sum_hours_on (dinsert M k v) shifts ds =
        calculate_shift_hours v shifts + sum_hours_on M shifts ds := by
  intro ds
  induction ds with
  | nil => intro _ hk; cases hk
  | cons d rest ih =>
    intro hnd hk hnone
    rw [List.nodup_cons] at hnd
    rw [sum_hours_on, sum_hours_on]
    by_cases hd : d = k
    · subst hd
      rw [dget?_dinsert_self, hnone,
        sum_hours_on_dinsert_not_mem _ _ _ _ _ hnd.1]
      ring
    · have hkrest : k ∈ rest := by
        rcases List.mem_cons.1 hk with h | h
        · exact absurd h.symm hd
        · exact h
      rw [dget?_dinsert_ne _ _ _ _ hd, ih hnd.2 hkrest hnone]
      ring

/-! ## What an accepted transfer guarantees -/

/-- Unpacking the transfer guard: an accepted candidate has no shift
that date, and the week-hours guards hold (the target-hours guard for
pass numbers below 20). -/
theorem transfer_acceptable_bounds (vacation : List (String × List Date))
    (A : List (String × List (Date × String))) (dates : List Date)
    (shifts : List (String × Shift)) (pass_num : Nat) (date : Date) (sid : String)
    (sk : Option String) (u : Employee)
    (h : transfer_acceptable vacation A dates shifts pass_num date sid sk u = true) :
    dget? (dgetD A u.name []) date = none ∧
    rebalancer_week_hours A dates shifts u.name date + calculate_shift_hours sid shifts ≤
      (u.max_hours_per_week : ℚ) ∧
    (pass_num < 20 →
      rebalancer_week_hours A dates shifts u.name date + calculate_shift_hours sid shifts ≤
        (u.weekly_target_hours : ℚ)) := by
  rw [transfer_acceptable.eq_def] at h
  simp only [Bool.and_eq_true, Bool.not_eq_true', Option.isNone_iff_eq_none,
    decide_eq_false_iff_not, not_lt] at h
  refine ⟨h.1.1.2, le_of_not_lt (by simpa using h.2.1), fun hp => ?_⟩
  have := h.2.2
  rw [if_pos hp] at this
  exact le_of_not_lt (by simpa using this)

/-! ## Effect of one transfer on week-buckets -/

theorem rwh_congr (A A' : List (String × List (Date × String))) (dates : List Date)
    (shifts : List (String × Shift)) (n : String) (d : Date)
    (h : dgetD A n [] = dgetD A' n []) :
    rebalancer_week_hours A dates shifts n d = rebalancer_week_hours A' dates shifts n d := by
  rw [rebalancer_week_hours, rebalancer_week_hours, h]

/-- A transfer never increases any week-bucket except the receiving
employee's (assuming nonnegative shift durations: deleting a pair can
only lower the giver's bucket). -/
theorem apply_transfer_week_hours_other (st : RebState) (over_name under_name : String)
    (date : Date) (sid : String) (dates : List Date) (shifts : List (String × Shift))
    (hnn : ∀ s, 0 ≤ calculate_shift_hours s shifts)
    (n : String) (hn : n ≠ under_name) (d : Date) :
    rebalancer_week_hours (apply_transfer st over_name under_name date sid).assignments
      dates shifts n d ≤ rebalancer_week_hours st.assignments dates shifts n d := by
  have h2 : dgetD (apply_transfer st over_name under_name date sid).assignments n [] =
      dgetD (dinsert st.assignments over_name
        (ddel (dgetD st.assignments over_name []) date)) n [] := by
    rw [apply_transfer]
    exact dgetD_dinsert_ne _ _ _ _ _ hn
  by_cases ho : n = over_name
  · subst ho
    have h1 : dgetD (dinsert st.assignments n
        (ddel (dgetD st.assignments n []) date)) n [] =
        ddel (dgetD st.assignments n []) date := dgetD_dinsert_self _ _ _ _
    rw [rebalancer_week_hours, rebalancer_week_hours, h2, h1]
    exact sum_hours_on_ddel_le _ _ _ hnn _
  · have h1 : dgetD (dinsert st.assignments over_name
        (ddel (dgetD st.assignments over_name []) date)) n [] =
        dgetD st.assignments n [] := dgetD_dinsert_ne _ _ _ _ _ ho
    exact le_of_eq (rwh_congr _ _ _ _ _ _ (h2.trans h1))

/-- The receiving employee's week-buckets stay below the larger of their
old value and the employee's hard cap (the transfer guard bounds the
affected bucket; other buckets are unchanged). -/
theorem apply_transfer_week_hours_under (st : RebState) (over_name : String)
    (u : Employee) (date : Date) (sid : String) (dates : List Date)
    (shifts : List (String × Shift))
    (hnn : ∀ s, 0 ≤ calculate_shift_hours s shifts) (hdates : dates.Nodup)
    (hnone : dget? (dgetD st.assignments u.name []) date = none)
    (hcap : rebalancer_week_hours st.assignments dates shifts u.name date +
      calculate_shift_hours sid shifts ≤ (u.max_hours_per_week : ℚ)) (d : Date) :
    rebalancer_week_hours (apply_transfer st over_name u.name date sid).assignments
      dates shifts u.name d ≤
      max (rebalancer_week_hours st.assignments dates shifts u.name d)
        (u.max_hours_per_week : ℚ) := by
  set Mu1 := dgetD (dinsert st.assignments over_name
    (ddel (dgetD st.assignments over_name []) date)) u.name [] with hMu1
  have hafter : dgetD (apply_transfer st over_name u.name date sid).assignments u.name [] =
      dinsert Mu1 date sid := by
    rw [apply_transfer]
    exact dgetD_dinsert_self _ _ _ _
  have hMu1none : dget? Mu1 date = none := by
    by_cases ho : u.name = over_name
    · rw [hMu1, ho, dgetD_dinsert_self, dget?_ddel, if_pos rfl]
    · rw [hMu1, dgetD_dinsert_ne _ _ _ _ _ ho]
      exact hnone
  have hMu1le : ∀ ds : List Date,
      sum_hours_on Mu1 shifts ds ≤ sum_hours_on (dgetD st.assignments u.name []) shifts ds := by
    intro ds
    by_cases ho : u.name = over_name
    · rw [hMu1, ho, dgetD_dinsert_self]
      exact sum_hours_on_ddel_le _ _ _ hnn _
    · rw [hMu1, dgetD_dinsert_ne _ _ _ _ _ ho]
  rw [rebalancer_week_hours, hafter]
  by_cases hmem : date ∈ dates.filter (fun x => decide (week_start x = week_start d))
  · have hws : week_start date = week_start d := by
      have := List.of_mem_filter hmem
      simpa using this
    have hfeq : dates.filter (fun x => decide (week_start x = week_start d)) =
        dates.filter (fun x => decide (week_start x = week_start date)) := by
      apply List.filter_congr
      intro x _
      rw [hws]
    have hnd : (dates.filter (fun x => decide (week_start x = week_start d))).Nodup :=
      hdates.filter _
    rw [sum_hours_on_dinsert_mem _ _ _ _ _ hnd hmem hMu1none]
    have h1 : sum_hours_on Mu1 shifts
        (dates.filter (fun x => decide (week_start x = week_start d))) ≤
        rebalancer_week_hours st.assignments dates shifts u.name date := by
      rw [rebalancer_week_hours, ← hfeq]
      exact hMu1le _
    calc calculate_shift_hours sid shifts +
          sum_hours_on Mu1 shifts (dates.filter (fun x => decide (week_start x = week_start d)))
        ≤ calculate_shift_hours sid shifts +
          rebalancer_week_hours st.assignments dates shifts u.name date := by
          exact add_le_add_left h1 _
      _ = rebalancer_week_hours st.assignments dates shifts u.name date +
          calculate_shift_hours sid shifts := by ring
      _ ≤ (u.max_hours_per_week : ℚ) := hcap
      _ ≤ max (rebalancer_week_hours st.assignments dates shifts u.name d)
          (u.max_hours_per_week : ℚ) := le_max_right _ _
  · rw [sum_hours_on_dinsert_not_mem _ _ _ _ _ hmem]
    refine le_trans (hMu1le _) ?_
    exact le_trans (le_of_eq rfl) (le_max_left _ _)

/-! ## The hour relation is reflexive, transitive, and preserved -/

theorem rebHourRel_refl (employees : List Employee) (dates : List Date)
    (shifts : List (String × Shift)) (st : RebState) :
    RebHourRel employees dates shifts st st :=
  fun _ _ d => le_max_left _ _

theorem rebHourRel_trans {employees : List Employee} {dates : List Date}
    {shifts : List (String × Shift)} {st1 st2 st3 : RebState}
    (h12 : RebHourRel employees dates shifts st1 st2)
    (h23 : RebHourRel employees dates shifts st2 st3) :
    RebHourRel employees dates shifts st1 st3 := by
  intro e he d
  refine le_trans (h23 e he d) ?_
  have h2 := h12 e he d
  have : max (rebalancer_week_hours st2.assignments dates shifts e.name d)
      (e.max_hours_per_week : ℚ) ≤
      max (max (rebalancer_week_hours st1.assignments dates shifts e.name d)
        (e.max_hours_per_week : ℚ)) (e.max_hours_per_week : ℚ) :=
    max_le_max h2 (le_refl _)
  rwa [max_assoc, max_self] at this

/-! ## The hour relation through the rebalancer loops -/

theorem mem_sinsert {γ : Type} (le : γ → γ → Bool) (x y : γ) :
    ∀ l : List γ, (y ∈ sinsert le x l ↔ y = x ∨ y ∈ l) := by
  intro l
  induction l with
  | nil => simp [sinsert]
  | cons z rest ih =>
    rw [sinsert]
    by_cases h : le x z
    · simp [h]
    · simp only [if_neg h, List.mem_cons, ih]
      tauto

theorem mem_ssort {γ : Type} (le : γ → γ → Bool) (x : γ) :
    ∀ l : List γ, (x ∈ ssort le l ↔ x ∈ l) := by
  intro l
  induction l with
  | nil => simp [ssort]
  | cons z rest ih =>
    rw [ssort, mem_sinsert, ih, List.mem_cons]

theorem rebalancer_try_pair_hours (cw cwe : List CoverageRequirement)
    (vacation : List (String × List Date)) (dates : List Date)
    (shifts : List (String × Shift)) (pass_num : Nat) (over_emp : Employee)
    (unders employees : List Employee) (date : Date) (sid : String) (st : RebState)
    (hnn : ∀ s, 0 ≤ calculate_shift_hours s shifts)
    (hdates : dates.Nodup)
    (hnames : (employees.map Employee.name).Nodup)
    (hunders : ∀ u ∈ unders, u ∈ employees) :
    RebHourRel employees dates shifts st
      (rebalancer_try_pair cw cwe vacation dates shifts pass_num over_emp unders date sid st) := by
  rw [rebalancer_try_pair]
  split
  next u hfind =>
    have hacc := List.find?_some hfind
    have hmem := List.mem_of_find?_eq_some hfind
    obtain ⟨hnone, hcap, _⟩ := transfer_acceptable_bounds _ _ _ _ _ _ _ _ _ hacc
    intro e he d
    by_cases hen : e.name = u.name
    · have heu : e = u := List.inj_on_of_nodup_map hnames he (hunders u hmem) hen
      subst heu
      exact apply_transfer_week_hours_under st over_emp.name e date sid dates shifts hnn
        hdates hnone hcap d
    · exact le_trans
        (apply_transfer_week_hours_other st over_emp.name u.name date sid dates shifts hnn
          e.name hen d)
        (le_max_left _ _)
  next hfind => exact rebHourRel_refl _ _ _ _

theorem rebalancer_pair_loop_hours (cw cwe : List CoverageRequirement)
    (vacation : List (String × List Date)) (dates : List Date)
    (shifts : List (String × Shift)) (pass_num : Nat) (cmax : Int)
    (over_emp : Employee) (unders employees : List Employee)
    (hnn : ∀ s, 0 ≤ calculate_shift_hours s shifts)
    (hdates : dates.Nodup)
    (hnames : (employees.map Employee.name).Nodup)
    (hunders : ∀ u ∈ unders, u ∈ employees) :
    ∀ (pairs : List (Date × String)) (st : RebState),
      RebHourRel employees dates shifts st
        (rebalancer_pair_loop cw cwe vacation dates shifts pass_num cmax over_emp unders
          pairs st) := by
  intro pairs
  induction pairs with
  | nil => intro st; exact rebHourRel_refl _ _ _ _
  | cons pr rest ih =>
    intro st
    obtain ⟨date, sid⟩ := pr
    simp only [rebalancer_pair_loop]
    have htp := rebalancer_try_pair_hours cw cwe vacation dates shifts pass_num over_emp
      unders employees date sid st hnn hdates hnames hunders
    split
    · split
      · exact ih st
      · split
        · exact htp
        · exact rebHourRel_trans htp (ih _)
    · split
      · exact ih st
      · split
        · exact htp
        · exact rebHourRel_trans htp (ih _)

theorem rebalancer_over_loop_hours
    (shuffle : Nat → List (Date × String) → List (Date × String))
    (cw cwe : List CoverageRequirement) (vacation : List (String × List Date))
    (dates : List Date) (shifts : List (String × Shift)) (pass_num : Nat) (cmax : Int)
    (unders employees : List Employee)
    (hnn : ∀ s, 0 ≤ calculate_shift_hours s shifts)
    (hdates : dates.Nodup)
    (hnames : (employees.map Employee.name).Nodup)
    (hunders : ∀ u ∈ unders, u ∈ employees) :
    ∀ (overs : List Employee) (st : RebState),
      RebHourRel employees dates shifts st
        (rebalancer_over_loop shuffle cw cwe vacation dates shifts pass_num cmax unders
          overs st) := by
  intro overs
  induction overs with
  | nil => intro st; exact rebHourRel_refl _ _ _ _
  | cons o rest ih =>
    intro st
    simp only [rebalancer_over_loop]
    exact rebHourRel_trans
      (rebalancer_pair_loop_hours cw cwe vacation dates shifts pass_num cmax o unders
        employees hnn hdates hnames hunders _ st)
      (ih _)

theorem rebalancer_passes_hours
    (shuffle : Nat → List (Date × String) → List (Date × String))
    (cw cwe : List CoverageRequirement) (vacation : List (String × List Date))
    (dates : List Date) (shifts : List (String × Shift))
    (working employees : List Employee) (min_t max_t : Int)
    (hnn : ∀ s, 0 ≤ calculate_shift_hours s shifts)
    (hdates : dates.Nodup)
    (hnames : (employees.map Employee.name).Nodup)
    (hworking : ∀ u ∈ working, u ∈ employees) :
    ∀ (ps : List Nat) (st : RebState),
      RebHourRel employees dates shifts st
        (rebalancer_passes shuffle cw cwe vacation dates shifts working min_t max_t ps st) := by
  intro ps
  induction ps with
  | nil => intro st; exact rebHourRel_refl _ _ _ _
  | cons p rest ih =>
    intro st
    simp only [rebalancer_passes]
    split
    · exact rebHourRel_refl _ _ _ _
    · have hunders : ∀ u ∈ (ssort (fun a b => decide (a.2 ≥ b.2))
          (working.filterMap (fun e =>
            if st.counts e.name < min_t - max 0 (2 - (p : Int) / 10) then
              some (e, min_t - max 0 (2 - (p : Int) / 10) - st.counts e.name)
            else none))).map (fun x => x.1), u ∈ employees := by
        intro u hu
        simp only [List.mem_map] at hu
        obtain ⟨pr, hpr, hfst⟩ := hu
        rw [mem_ssort] at hpr
        simp only [List.mem_filterMap] at hpr
        obtain ⟨e, he, heq⟩ := hpr
        by_cases hc : st.counts e.name < min_t - max 0 (2 - (p : Int) / 10)
        · rw [if_pos hc] at heq
          have : pr.1 = e := by
            cases heq
            rfl
          exact hworking u (by rw [← hfst, this]; exact he)
        · rw [if_neg hc] at heq
          cases heq
      split
      · exact rebalancer_over_loop_hours shuffle cw cwe vacation dates shifts p _ _
          employees hnn hdates hnames hunders _ st
      · exact rebHourRel_trans
          (rebalancer_over_loop_hours shuffle cw cwe vacation dates shifts p _ _
            employees hnn hdates hnames hunders _ st)
          (ih _)

/-- Claim C5 as amended: the transfer guard does bound the receiving
employee (current week-bucket plus the shift's hours at most
`max_hours_per_week`, and for pass numbers below 20 also at most
`weekly_target_hours`); and provided every shift duration the table
yields is nonnegative — true of all well-formed `HH:MM` times, but not
of parseable nonsense like "-200:00" (see the counterexample) — and
employee names and period dates are duplicate-free, rebalancing never
raises any employee's week-bucket above the larger of its initial value
and that employee's `max_hours_per_week`. -/
theorem C5_amended_hard_hour_cap
    (shuffle : Nat → List (Date × String) → List (Date × String))
    (assignments : List (String × List (Date × String)))
    (employees : List Employee) (vacation : List (String × List Date))
    (cw cwe : List CoverageRequirement) (dates : List Date)
    (shifts : List (String × Shift))
    (hnn : ∀ s, 0 ≤ calculate_shift_hours s shifts)
    (hdates : dates.Nodup)
    (hnames : (employees.map Employee.name).Nodup) :
    (∀ (A : List (String × List (Date × String))) (pass_num : Nat) (date : Date)
        (sid : String) (sk : Option String) (u : Employee),
      transfer_acceptable vacation A dates shifts pass_num date sid sk u = true →
        rebalancer_week_hours A dates shifts u.name date + calculate_shift_hours sid shifts ≤
          (u.max_hours_per_week : ℚ) ∧
        (pass_num < 20 →
          rebalancer_week_hours A dates shifts u.name date + calculate_shift_hours sid shifts ≤
            (u.weekly_target_hours : ℚ))) ∧
    (∀ e ∈ employees, ∀ d : Date,
      rebalancer_week_hours
        (rebalance_shift_assignments shuffle assignments employees vacation cw cwe dates shifts)
        dates shifts e.name d ≤
      max (rebalancer_week_hours assignments dates shifts e.name d)
        (e.max_hours_per_week : ℚ)) := by
  constructor
  · intro A pass_num date sid sk u h
    obtain ⟨_, h2, h3⟩ := transfer_acceptable_bounds _ _ _ _ _ _ _ _ _ h
    exact ⟨h2, h3⟩
  · simp only [rebalance_shift_assignments]
    split
    · intro e _ d
      exact le_max_left _ _
    · intro e he d
      have hworking : ∀ u ∈ employees.filter
          (fun e => decide (((dgetD assignments e.name []).length : Int) > 0)), u ∈ employees :=
        fun u hu => (List.mem_filter.1 hu).1
      exact rebalancer_passes_hours shuffle cw cwe vacation dates shifts _ employees _ _
        hnn hdates hnames hworking _ _ e he d

unseal Rat.add Rat.sub Rat.mul Rat.inv Rat.ofScientific in
/-- Witness for the amended C5 at a concrete instance. -/
theorem C5_amended_hard_hour_cap_witness :
    rebalancer_week_hours
      (rebalance_shift_assignments id_shuffle [("X", [((0 : Date), "S")])]
        [⟨"E", "X", [], 37, 48⟩] [] [] [] [(0 : Date)] [])
      [(0 : Date)] [] "X" 0 ≤
      max (rebalancer_week_hours [("X", [((0 : Date), "S")])] [(0 : Date)] [] "X" 0)
        ((48 : Int) : ℚ) := by
  have hnn : ∀ s, (0 : ℚ) ≤ calculate_shift_hours s [] := by
    intro s
    have hc : calculate_shift_hours s [] = DEFAULT_SHIFT_HOURS := rfl
    rw [hc, DEFAULT_SHIFT_HOURS]
    norm_num
  exact (C5_amended_hard_hour_cap id_shuffle [("X", [((0 : Date), "S")])]
    [⟨"E", "X", [], 37, 48⟩] [] [] [] [(0 : Date)] [] hnn (by decide) (by decide)).2
    ⟨"E", "X", [], 37, 48⟩ (by decide) 0

/-! ## Slot-count bookkeeping lemmas -/

theorem count_assigned_nil (d : Date) (s : String) : count_assigned [] d s = 0 := rfl

theorem count_assigned_cons (p : String × List (Date × String))
    (A : List (String × List (Date × String))) (d : Date) (s : String) :
    count_assigned (p :: A) d s = entry_ind p.2 d s + count_assigned A d s := by
  by_cases h : dget? p.2 d = some s
  · simp [count_assigned, entry_ind, List.filter_cons, h]
    omega
  · simp [count_assigned, entry_ind, List.filter_cons, h]

theorem count_assigned_dinsert (A : List (String × List (Date × String)))
    (n : String) (M : List (Date × String)) (d : Date) (s : String) :
    count_assigned (dinsert A n M) d s + entry_ind (dgetD A n []) d s =
      count_assigned A d s + entry_ind M d s := by
  induction A with
  | nil =>
    have h1 : dinsert ([] : List (String × List (Date × String))) n M = [(n, M)] := rfl
    rw [h1, count_assigned_cons, count_assigned_nil]
    have h2 : dgetD ([] : List (String × List (Date × String))) n [] = [] := rfl
    rw [h2]
    have h3 : entry_ind [] d s = 0 := rfl
    rw [h3]
    simp
  | cons p rest ih =>
    by_cases hp : p.1 = n
    · rw [dinsert, if_pos hp, count_assigned_cons, count_assigned_cons]
      have hg : dgetD (p :: rest) n [] = p.2 := by
        rw [dgetD, dget?_cons, if_pos hp]
        rfl
      rw [hg]
      dsimp only
      omega
    · rw [dinsert, if_neg hp, count_assigned_cons, count_assigned_cons]
      have hg : dgetD (p :: rest) n [] = dgetD rest n [] := by
        rw [dgetD, dget?_cons, if_neg hp, dgetD]
      rw [hg]
      omega

theorem nodup_inner_dgetD {A : List (String × List (Date × String))}
    (hi : ∀ p ∈ A, (dkeys p.2).Nodup) (n : String) :
    (dkeys (dgetD A n [])).Nodup := by
  rw [dgetD]
  rcases hg : dget? A n with _ | M
  · simp [dkeys]
  · exact hi (n, M) (mem_of_dget?_eq_some hg)

theorem wf_dinsert {A : List (String × List (Date × String))} {n : String}
    {M : List (Date × String)}
    (ho : (dkeys A).Nodup) (hi : ∀ p ∈ A, (dkeys p.2).Nodup)
    (hM : (dkeys M).Nodup) :
    (dkeys (dinsert A n M)).Nodup ∧ ∀ p ∈ dinsert A n M, (dkeys p.2).Nodup := by
  refine ⟨nodup_dkeys_dinsert ho, fun p hp => ?_⟩
  rcases mem_dinsert hp with h | h
  · exact hi p h
  · rw [h]
    exact hM

/-- One accepted transfer leaves every (date, shift) slot count exactly
as it was: the pair leaves the giver's map and enters the receiver's. -/
theorem apply_transfer_count (st : RebState) (over_name : String) (under_name : String)
    (date : Date) (sid : String)
    (hvalid : dget? (dgetD st.assignments over_name []) date = some sid)
    (hnone : dget? (dgetD st.assignments under_name []) date = none) :
    ∀ (d : Date) (s : String),
      count_assigned (apply_transfer st over_name under_name date sid).assignments d s =
        count_assigned st.assignments d s := by
  intro d s
  have hne : under_name ≠ over_name := by
    intro h
    rw [h, hvalid] at hnone
    cases hnone
  have hafter : (apply_transfer st over_name under_name date sid).assignments =
      dinsert (dinsert st.assignments over_name
          (ddel (dgetD st.assignments over_name []) date)) under_name
        (dinsert (dgetD (dinsert st.assignments over_name
          (ddel (dgetD st.assignments over_name []) date)) under_name []) date sid) := rfl
  set Mo := dgetD st.assignments over_name [] with hMo
  set A1 := dinsert st.assignments over_name (ddel Mo date) with hA1
  have hMu1 : dgetD A1 under_name [] = dgetD st.assignments under_name [] := by
    rw [hA1]
    exact dgetD_dinsert_ne _ _ _ _ _ hne
  have e1 := count_assigned_dinsert st.assignments over_name (ddel Mo date) d s
  have e2 := count_assigned_dinsert A1 under_name
    (dinsert (dgetD A1 under_name []) date sid) d s
  rw [hafter]
  rw [← hMo, ← hA1] at *
  by_cases hd : d = date
  · subst hd
    have i1 : entry_ind (ddel Mo d) d s = 0 := by
      rw [entry_ind, dget?_ddel, if_pos rfl]
      simp
    have i2 : entry_ind (dgetD A1 under_name []) d s = 0 := by
      rw [entry_ind, hMu1, hnone]
      simp
    have i3 : entry_ind (dinsert (dgetD A1 under_name []) d sid) d s =
        entry_ind Mo d s := by
      rw [entry_ind, dget?_dinsert_self, entry_ind, hvalid]
    omega
  · have i1 : entry_ind (ddel Mo date) d s = entry_ind Mo d s := by
      rw [entry_ind, dget?_ddel, if_neg hd, entry_ind]
    have i3 : entry_ind (dinsert (dgetD A1 under_name []) date sid) d s =
        entry_ind (dgetD A1 under_name []) d s := by
      rw [entry_ind, dget?_dinsert_ne _ _ _ _ hd, entry_ind]
    omega

/-- One accepted transfer preserves well-formedness of the state. -/
theorem apply_transfer_wf (st : RebState) (over_name under_name : String)
    (date : Date) (sid : String) (hwf : RebWF st) :
    RebWF (apply_transfer st over_name under_name date sid) := by
  obtain ⟨ho, hi⟩ := hwf
  have h1 := wf_dinsert (A := st.assignments) (n := over_name)
    (M := ddel (dgetD st.assignments over_name []) date) ho hi
    (nodup_dkeys_ddel (nodup_inner_dgetD hi over_name))
  have h2 := wf_dinsert (A := dinsert st.assignments over_name
      (ddel (dgetD st.assignments over_name []) date)) (n := under_name)
    (M := dinsert (dgetD (dinsert st.assignments over_name
      (ddel (dgetD st.assignments over_name []) date)) under_name []) date sid)
    h1.1 h1.2 (nodup_dkeys_dinsert (nodup_inner_dgetD h1.2 under_name))
  exact ⟨h2.1, h2.2⟩

/-! ## Slot counts through the rebalancer loops -/

theorem rebalancer_try_pair_count (cw cwe : List CoverageRequirement)
    (vacation : List (String × List Date)) (dates : List Date)
    (shifts : List (String × Shift)) (pass_num : Nat) (over_emp : Employee)
    (unders : List Employee) (date : Date) (sid : String) (st : RebState)
    (hwf : RebWF st)
    (hvalid : dget? (dgetD st.assignments over_emp.name []) date = some sid) :
    RebCountRel st (rebalancer_try_pair cw cwe vacation dates shifts pass_num over_emp
      unders date sid st) ∧
    RebWF (rebalancer_try_pair cw cwe vacation dates shifts pass_num over_emp
      unders date sid st) ∧
    (∀ k : Date, k ≠ date →
      dget? (dgetD (rebalancer_try_pair cw cwe vacation dates shifts pass_num over_emp
        unders date sid st).assignments over_emp.name []) k =
      dget? (dgetD st.assignments over_emp.name []) k) := by
  rw [rebalancer_try_pair]
  split
  next u hfind =>
    have hacc := List.find?_some hfind
    obtain ⟨hnone, _, _⟩ := transfer_acceptable_bounds _ _ _ _ _ _ _ _ _ hacc
    have hne : u.name ≠ over_emp.name := by
      intro h
      rw [h, hvalid] at hnone
      cases hnone
    refine ⟨apply_transfer_count st over_emp.name u.name date sid hvalid hnone,
      apply_transfer_wf st over_emp.name u.name date sid hwf, ?_⟩
    intro k hk
    have hafter : (apply_transfer st over_emp.name u.name date sid).assignments =
        dinsert (dinsert st.assignments over_emp.name
            (ddel (dgetD st.assignments over_emp.name []) date)) u.name
          (dinsert (dgetD (dinsert st.assignments over_emp.name
            (ddel (dgetD st.assignments over_emp.name []) date)) u.name []) date sid) := rfl
    rw [hafter, dgetD_dinsert_ne _ _ _ _ _ (fun h => hne h.symm), dgetD_dinsert_self,
      dget?_ddel, if_neg hk]
  next hfind =>
    exact ⟨fun d s => rfl, hwf, fun k _ => rfl⟩

theorem rebalancer_pair_loop_count (cw cwe : List CoverageRequirement)
    (vacation : List (String × List Date)) (dates : List Date)
    (shifts : List (String × Shift)) (pass_num : Nat) (cmax : Int)
    (over_emp : Employee) (unders : List Employee) :
    ∀ (pairs : List (Date × String)) (st : RebState),
      RebWF st →
      (∀ pr ∈ pairs, dget? (dgetD st.assignments over_emp.name []) pr.1 = some pr.2) →
      (pairs.map Prod.fst).Nodup →
      RebCountRel st (rebalancer_pair_loop cw cwe vacation dates shifts pass_num cmax
        over_emp unders pairs st) ∧
      RebWF (rebalancer_pair_loop cw cwe vacation dates shifts pass_num cmax
        over_emp unders pairs st) := by
  intro pairs
  induction pairs with
  | nil =>
    intro st hwf _ _
    exact ⟨fun d s => rfl, hwf⟩
  | cons pr rest ih =>
    intro st hwf hvalid hnodup
    obtain ⟨date, sid⟩ := pr
    have hvhead := hvalid (date, sid) (List.mem_cons_self _ _)
    have hvrest : ∀ q ∈ rest,
        dget? (dgetD st.assignments over_emp.name []) q.1 = some q.2 :=
      fun q hq => hvalid q (List.mem_cons_of_mem _ hq)
    have hnd := List.nodup_cons.1 hnodup
    obtain ⟨htc, htw, htk⟩ := rebalancer_try_pair_count cw cwe vacation dates shifts
      pass_num over_emp unders date sid st hwf hvhead
    have hvrest' : ∀ q ∈ rest,
        dget? (dgetD (rebalancer_try_pair cw cwe vacation dates shifts pass_num over_emp
          unders date sid st).assignments over_emp.name []) q.1 = some q.2 := by
      intro q hq
      have hqd : q.1 ≠ date := by
        intro h
        apply hnd.1
        rw [← h]
        exact List.mem_map.2 ⟨q, hq, rfl⟩
      rw [htk q.1 hqd]
      exact hvrest q hq
    simp only [rebalancer_pair_loop]
    split
    · split
      · exact ih st hwf hvrest hnd.2
      · split
        · exact ⟨htc, htw⟩
        · obtain ⟨ihc, ihw⟩ := ih _ htw hvrest' hnd.2
          exact ⟨fun d s => (ihc d s).trans (htc d s), ihw⟩
    · split
      · exact ih st hwf hvrest hnd.2
      · split
        · exact ⟨htc, htw⟩
        · obtain ⟨ihc, ihw⟩ := ih _ htw hvrest' hnd.2
          exact ⟨fun d s => (ihc d s).trans (htc d s), ihw⟩

theorem rebalancer_over_loop_count
    (shuffle : Nat → List (Date × String) → List (Date × String))
    (cw cwe : List CoverageRequirement) (vacation : List (String × List Date))
    (dates : List Date) (shifts : List (String × Shift)) (pass_num : Nat) (cmax : Int)
    (unders : List Employee)
    (hsh : ∀ (n : Nat) (l : List (Date × String)), (shuffle n l).Perm l) :
    ∀ (overs : List Employee) (st : RebState),
      RebWF st →
      RebCountRel st (rebalancer_over_loop shuffle cw cwe vacation dates shifts pass_num
        cmax unders overs st) ∧
      RebWF (rebalancer_over_loop shuffle cw cwe vacation dates shifts pass_num cmax
        unders overs st) := by
  intro overs
  induction overs with
  | nil =>
    intro st hwf
    exact ⟨fun d s => rfl, hwf⟩
  | cons o rest ih =>
    intro st hwf
    simp only [rebalancer_over_loop]
    have hperm : (if pass_num > 0 then shuffle pass_num (dgetD st.assignments o.name [])
        else dgetD st.assignments o.name []).Perm (dgetD st.assignments o.name []) := by
      split
      · exact hsh _ _
      · exact List.Perm.refl _
    have hMoNodup : (dkeys (dgetD st.assignments o.name [])).Nodup :=
      nodup_inner_dgetD hwf.2 o.name
    have hvalid : ∀ pr ∈ (if pass_num > 0 then
        shuffle pass_num (dgetD st.assignments o.name [])
        else dgetD st.assignments o.name []),
        dget? (dgetD st.assignments o.name []) pr.1 = some pr.2 := by
      intro pr hpr
      exact dget?_eq_some_of_mem hMoNodup (hperm.mem_iff.1 hpr)
    have hkeys : ((if pass_num > 0 then shuffle pass_num (dgetD st.assignments o.name [])
        else dgetD st.assignments o.name []).map Prod.fst).Nodup :=
      ((hperm.map Prod.fst).nodup_iff).2 hMoNodup
    obtain ⟨hc1, hw1⟩ := rebalancer_pair_loop_count cw cwe vacation dates shifts pass_num
      cmax o unders _ st hwf hvalid hkeys
    obtain ⟨hc2, hw2⟩ := ih _ hw1
    exact ⟨fun d s => (hc2 d s).trans (hc1 d s), hw2⟩

theorem rebalancer_passes_count
    (shuffle : Nat → List (Date × String) → List (Date × String))
    (cw cwe : List CoverageRequirement) (vacation : List (String × List Date))
    (dates : List Date) (shifts : List (String × Shift)) (working : List Employee)
    (min_t max_t : Int)
    (hsh : ∀ (n : Nat) (l : List (Date × String)), (shuffle n l).Perm l) :
    ∀ (ps : List Nat) (st : RebState),
      RebWF st →
      RebCountRel st (rebalancer_passes shuffle cw cwe vacation dates shifts working
        min_t max_t ps st) ∧
      RebWF (rebalancer_passes shuffle cw cwe vacation dates shifts working min_t max_t
        ps st) := by
  intro ps
  induction ps with
  | nil =>
    intro st hwf
    exact ⟨fun d s => rfl, hwf⟩
  | cons p rest ih =>
    intro st hwf
    simp only [rebalancer_passes]
    split
    · exact ⟨fun d s => rfl, hwf⟩
    · obtain ⟨hc1, hw1⟩ := rebalancer_over_loop_count shuffle cw cwe vacation dates shifts
        p _ _ hsh _ st hwf
      split
      · exact ⟨hc1, hw1⟩
      · obtain ⟨hc2, hw2⟩ := ih _ hw1
        exact ⟨fun d s => (hc2 d s).trans (hc1 d s), hw2⟩

/-- Claim C6: rebalancer preservation.  For every well-formed input
assignment (duplicate-free names and per-employee date keys, as for
Python dicts) and any permutation-valued shuffle: (a) for every date and
shift name, the number of employees assigned to that shift on that date
after `rebalance_shift_assignments` equals the number before — no
assignment is deleted without being re-inserted on the same date and
shift; and (b) every employee still has at most one shift per date (the
per-employee date keys remain duplicate-free; transfers only go to
employees with no shift on that date). -/
theorem C6_rebalancer_preservation
    (shuffle : Nat → List (Date × String) → List (Date × String))
    (assignments : List (String × List (Date × String)))
    (employees : List Employee) (vacation : List (String × List Date))
    (cw cwe : List CoverageRequirement) (dates : List Date)
    (shifts : List (String × Shift))
    (hsh : ∀ (n : Nat) (l : List (Date × String)), (shuffle n l).Perm l)
    (houter : (dkeys assignments).Nodup)
    (hinner : ∀ p ∈ assignments, (dkeys p.2).Nodup) :
    (∀ (d : Date) (s : String),
      count_assigned (rebalance_shift_assignments shuffle assignments employees vacation
        cw cwe dates shifts) d s = count_assigned assignments d s) ∧
    (∀ name : String,
      (dkeys (dgetD (rebalance_shift_assignments shuffle assignments employees vacation
        cw cwe dates shifts) name [])).Nodup) := by
  simp only [rebalance_shift_assignments]
  split
  · exact ⟨fun d s => rfl, fun name => nodup_inner_dgetD hinner name⟩
  · obtain ⟨hc, hw⟩ := rebalancer_passes_count shuffle cw cwe vacation dates shifts _ _ _
      hsh (List.range 30)
      { assignments := assignments,
        counts := fun n => ((dgetD assignments n []).length : Int), transfers := 0 }
      ⟨houter, hinner⟩
    exact ⟨fun d s => hc d s, fun name => nodup_inner_dgetD hw.2 name⟩

unseal Rat.add Rat.sub Rat.mul Rat.inv Rat.ofScientific in
/-- Witness for C6 at a concrete instance. -/
theorem C6_rebalancer_preservation_witness :
    count_assigned (rebalance_shift_assignments id_shuffle [("X", [((0 : Date), "S")])]
      [⟨"E", "X", [], 37, 48⟩] [] [] [] [(0 : Date)] []) 0 "S" =
      count_assigned [("X", [((0 : Date), "S")])] 0 "S" ∧
    (dkeys (dgetD (rebalance_shift_assignments id_shuffle [("X", [((0 : Date), "S")])]
      [⟨"E", "X", [], 37, 48⟩] [] [] [] [(0 : Date)] []) "X" [])).Nodup := by
  have h := C6_rebalancer_preservation id_shuffle [("X", [((0 : Date), "S")])]
    [⟨"E", "X", [], 37, 48⟩] [] [] [] [(0 : Date)] []
    (fun _ l => List.Perm.refl l) (by decide)
    (by
      intro p hp
      rw [List.mem_singleton] at hp
      subst hp
      decide)
  exact ⟨h.1 0 "S", h.2 "X"⟩

/-! ## Allocator key-set lemmas (claims C8, C9) -/

section AllocKeys

variable {α β : Type} [DecidableEq α]

end AllocKeys

